import Mathlib

/-!
Verification of the Webflow → Payload migration toolkit
(litecoin-fund-cms).  The JavaScript string values are modelled as
`List Char`; `undefined` is modelled by `Option`; JS falsiness of a
string ("" is falsy) is modelled explicitly.  The definitions below are
shallow embeddings of the functions in
`scripts/migrate-from-webflow.ts`, `scripts/refresh-from-webflow.ts`
and the API-based refresh script (`refresh-from-webflow-api.ts`).
-/

/-- JS strings, modelled as lists of characters. -/
abbrev Str := List Char

/-- JS `a || b` for an optional string `a` (undefined and "" are falsy). -/
def jsOr (a : Option Str) (b : Str) : Str :=
  match a with
  | none => b
  | some s => if s.isEmpty then b else s

/-- JS `a || b` for two plain strings ("" is falsy). -/
def jsOr2 (a b : Str) : Str := if a.isEmpty then b else a

/-- JS `String.prototype.toLowerCase` on one character (ASCII range;
the characters relevant to slugs and statuses are ASCII). -/
def jsLowerChar (c : Char) : Char :=
  if 65 ≤ c.toNat ∧ c.toNat ≤ 90 then Char.ofNat (c.toNat + 32) else c

/-- JS `toLowerCase` on a string. -/
def jsLower (s : Str) : Str := s.map jsLowerChar

/-- Code points treated as whitespace by JS `String.prototype.trim`. -/
def jsWsVals : List Nat :=
  [9, 10, 11, 12, 13, 32, 160, 5760, 8192, 8193, 8194, 8195, 8196, 8197,
   8198, 8199, 8200, 8201, 8202, 8232, 8233, 8239, 8287, 12288, 65279]

/-- Whitespace test for JS `trim`. -/
def jsIsWs (c : Char) : Bool := decide (c.toNat ∈ jsWsVals)

/-- JS `String.prototype.trim`: drop whitespace from both ends. -/
def jsTrim (s : Str) : Str :=
  ((s.dropWhile jsIsWs).reverse.dropWhile jsIsWs).reverse

/-- Characters kept by the sanitizer's character class `[a-z0-9-]`. -/
def isSlugChar (c : Char) : Bool :=
  decide ((97 ≤ c.toNat ∧ c.toNat ≤ 122) ∨
          (48 ≤ c.toNat ∧ c.toNat ≤ 57) ∨ c.toNat = 45)

/-- The replace step: every character outside `[a-z0-9-]` becomes `-`. -/
def replaceBadChars (s : Str) : Str :=
  s.map (fun c => if isSlugChar c then c else '-')

/-- The collapse step: every run of hyphens becomes one hyphen. -/
def collapseDashes : Str → Str
  | [] => []
  | [c] => [c]
  | c :: c' :: rest =>
    if c = '-' ∧ c' = '-' then collapseDashes (c' :: rest)
    else c :: collapseDashes (c' :: rest)

/-- Drop one leading hyphen, if present. -/
def dropLeadDash : Str → Str
  | [] => []
  | c :: rest => if c = '-' then rest else c :: rest

/-- The strip step: remove one leading and one trailing hyphen. -/
def stripEdgeDashes (s : Str) : Str :=
  (dropLeadDash ((dropLeadDash s).reverse)).reverse

/-- The slug sanitizer used (verbatim, repeated) by every migration and
refresh script: lower-case, trim, replace characters outside
`[a-z0-9-]` with `-`, collapse hyphen runs, strip edge hyphens. -/
def sanitizeSlug (s : Str) : Str :=
  stripEdgeDashes (collapseDashes (replaceBadChars (jsTrim (jsLower s))))

/-- `p` is a prefix of `s` (character-wise). -/
def prefAt : Str → Str → Bool
  | [], _ => true
  | _ :: _, [] => false
  | a :: as, b :: bs => a = b && prefAt as bs

/-- JS `String.prototype.includes`: `pat` occurs somewhere in `s`. -/
def strIncl (s pat : Str) : Bool :=
  match s with
  | [] => pat.isEmpty
  | _ :: rest => prefAt pat s || strIncl rest pat

/-- The fixed status enum of the Payload `projects` collection. -/
def statusEnum : List Str :=
  [("active").data, ("completed").data, ("paused").data, ("archived").data]

/-- Status normalization from `migrateProjects` / `refreshProjects`:
lower-case, pass exact enum values through, otherwise substring
heuristics, otherwise default to "active". -/
def normalizeStatus (raw : Str) : Str :=
  let s := jsLower raw
  if statusEnum.contains s then s
  else if strIncl s (("active").data) || strIncl s (("live").data) then
    ("active").data
  else if strIncl s (("complete").data) || strIncl s (("done").data) then
    ("completed").data
  else if strIncl s (("pause").data) || strIncl s (("hold").data) then
    ("paused").data
  else if strIncl s (("archive").data) then ("archived").data
  else ("active").data

/-- Helper for `split('\n')`: accumulate the current line (reversed). -/
def splitNlAux : Str → Str → List Str
  | [], acc => [acc.reverse]
  | c :: rest, acc =>
    if c = '\n' then acc.reverse :: splitNlAux rest []
    else splitNlAux rest (c :: acc)

/-- JS `text.split('\n')`. -/
def splitNl (s : Str) : List Str := splitNlAux s []

/-- The lines kept by `textToLexical`:
`text.split('\n').filter((line) => line.trim().length > 0)`. -/
def nonBlankLines (s : Str) : List Str :=
  (splitNl s).filter (fun l => !(jsTrim l).isEmpty)

/-- A Lexical text node as built by `textToLexical` (`type: 'text'`). -/
structure LexicalTextNode where
  detail : Nat
  format : Nat
  mode : Str
  style : Str
  text : Str
  nodeType : Str
  version : Nat
  deriving Repr, DecidableEq

/-- A Lexical paragraph node (`type: 'paragraph'`). -/
structure LexicalParagraph where
  children : List LexicalTextNode
  direction : Str
  format : Str
  indent : Nat
  nodeType : Str
  version : Nat
  deriving Repr, DecidableEq

/-- The Lexical root node (`type: 'root'`). -/
structure LexicalRoot where
  children : List LexicalParagraph
  direction : Str
  format : Str
  indent : Nat
  nodeType : Str
  version : Nat
  deriving Repr, DecidableEq

/-- A Lexical document (the object `{ root: ... }`). -/
structure LexicalDoc where
  root : LexicalRoot
  deriving Repr, DecidableEq

/-- The empty paragraph produced for empty input. -/
def emptyParagraph : LexicalParagraph :=
  { children := [], direction := ("ltr").data, format := [], indent := 0,
    nodeType := ("paragraph").data, version := 1 }

/-- The document returned by `textToLexical` for empty/undefined text. -/
def emptyLexicalDoc : LexicalDoc :=
  { root := { children := [emptyParagraph], direction := ("ltr").data,
              format := [], indent := 0, nodeType := ("root").data,
              version := 1 } }

/-- The text node built for one non-blank line. -/
def mkTextNode (line : Str) : LexicalTextNode :=
  { detail := 0, format := 0, mode := ("normal").data, style := [],
    text := jsTrim line, nodeType := ("text").data, version := 1 }

/-- The paragraph built for one non-blank line. -/
def mkParagraph (line : Str) : LexicalParagraph :=
  { children := [mkTextNode line], direction := ("ltr").data, format := [],
    indent := 0, nodeType := ("paragraph").data, version := 1 }

/-- `textToLexical` from the migration/refresh scripts: undefined or
empty text gives a document with one empty paragraph; otherwise one
paragraph per non-blank line, in input order. -/
def textToLexical (t : Option Str) : LexicalDoc :=
  match t with
  | none => emptyLexicalDoc
  | some s =>
    if s.isEmpty then emptyLexicalDoc
    else
      let lines := nonBlankLines s
      if lines.isEmpty then emptyLexicalDoc
      else
        { root := { children := lines.map mkParagraph,
                    direction := ("ltr").data, format := [], indent := 0,
                    nodeType := ("root").data, version := 1 } }

/-! ## Data model: Webflow (source) and Payload (target) records -/

/-- A Webflow contributor item (fields relevant to the scripts). -/
structure WfContributor where
  id : Str
  itemSlug : Str
  fieldName : Option Str
  fieldSlug : Option Str
  twitterLink : Option Str
  discordLink : Option Str
  githubLink : Option Str
  youtubeLink : Option Str
  linkedinLink : Option Str
  email : Option Str
  isDraft : Bool
  isArchived : Bool
  deriving Repr, DecidableEq

/-- A Payload contributor document.  Payload Postgres ids are numeric. -/
structure PayloadContributor where
  id : Nat
  slug : Option Str
  name : Option Str
  twitterLink : Option Str
  discordLink : Option Str
  githubLink : Option Str
  youtubeLink : Option Str
  linkedinLink : Option Str
  email : Option Str
  deriving Repr, DecidableEq

/-- The `contributorData` object written by create/update calls. -/
structure ContributorData where
  name : Str
  slug : Str
  twitterLink : Option Str
  discordLink : Option Str
  githubLink : Option Str
  youtubeLink : Option Str
  linkedinLink : Option Str
  email : Option Str
  deriving Repr, DecidableEq

/-- `name = fieldData.name || 'Unknown Contributor'`. -/
def srcName (c : WfContributor) : Str :=
  jsOr c.fieldName (("Unknown Contributor").data)

/-- `slug = fieldData.slug || webflowContributor.slug || webflowContributor.id`. -/
def srcRawSlug (c : WfContributor) : Str :=
  jsOr c.fieldSlug (jsOr2 c.itemSlug c.id)

/-- The sanitized slug computed for a source contributor. -/
def srcSanitized (c : WfContributor) : Str := sanitizeSlug (srcRawSlug c)

/-- The original (pre-sanitization) slug key used by the third matching
strategy: `(fieldData.slug || slug || '').toLowerCase().trim()`. -/
def srcOrigKey (c : WfContributor) : Str :=
  jsTrim (jsLower (jsOr c.fieldSlug (jsOr2 c.itemSlug [])))

/-- The `contributorData` payload built from a source contributor. -/
def contributorDataOf (c : WfContributor) (sanitized : Str) : ContributorData :=
  { name := srcName c, slug := sanitized,
    twitterLink := c.twitterLink, discordLink := c.discordLink,
    githubLink := c.githubLink, youtubeLink := c.youtubeLink,
    linkedinLink := c.linkedinLink, email := c.email }

/-- A fresh Payload document created from `contributorData`. -/
def mkPayloadContributor (i : Nat) (d : ContributorData) : PayloadContributor :=
  { id := i, slug := some d.slug, name := some d.name,
    twitterLink := d.twitterLink, discordLink := d.discordLink,
    githubLink := d.githubLink, youtubeLink := d.youtubeLink,
    linkedinLink := d.linkedinLink, email := d.email }

/-- Updating an existing document with the full `contributorData`. -/
def applyContributorData (d : ContributorData) (r : PayloadContributor) :
    PayloadContributor :=
  { r with
    slug := some d.slug
    name := some d.name
    twitterLink := d.twitterLink
    discordLink := d.discordLink
    githubLink := d.githubLink
    youtubeLink := d.youtubeLink
    linkedinLink := d.linkedinLink
    email := d.email }

/-! ## JS `Map` semantics -/

/-- Lookup in a JS `Map` built with `new Map(pairs)`: a later pair with
the same key overwrites an earlier one, so the last match wins. -/
def jsMapGet {α : Type} (pairs : List (Str × α)) (k : Str) : Option α :=
  (pairs.reverse.find? (fun p => decide (p.1 = k))).map (fun p => p.2)

/-- `Map.prototype.set`: the new entry shadows older ones (we put it in
front and let `mapGet` take the first match). -/
def mapSet (m : List (Str × Nat)) (k : Str) (v : Nat) : List (Str × Nat) :=
  (k, v) :: m

/-- `Map.prototype.get` for maps maintained with `mapSet`. -/
def mapGet (m : List (Str × Nat)) (k : Str) : Option Nat :=
  (m.find? (fun p => decide (p.1 = k))).map (fun p => p.2)

/-! ## The reconciliation matcher of the API refresh script -/

/-- JS truthiness of an optional string field. -/
def truthyOpt (o : Option Str) : Bool :=
  match o with
  | none => false
  | some s => !s.isEmpty

/-- Key of the slug lookup map: `c.slug?.toLowerCase().trim() || ''`. -/
def slugKeyOfTarget (c : PayloadContributor) : Str :=
  match c.slug with
  | none => []
  | some s => jsTrim (jsLower s)

/-- Key of the name lookup map (only contributors with a truthy name
are entered): `c.name.toLowerCase().trim()`. -/
def nameKeyOfTarget (c : PayloadContributor) : Option Str :=
  if truthyOpt c.name then some (jsTrim (jsLower (c.name.getD []))) else none

/-- `payloadContributorsBySlug`, built once from the fetched store. -/
def mkSlugPairs (store : List PayloadContributor) :
    List (Str × PayloadContributor) :=
  store.map (fun c => (slugKeyOfTarget c, c))

/-- `payloadContributorsByName`, built once from the fetched store. -/
def mkNamePairs (store : List PayloadContributor) :
    List (Str × PayloadContributor) :=
  (store.filter (fun c => truthyOpt c.name)).map
    (fun c => (jsTrim (jsLower (c.name.getD [])), c))

/-- The three-strategy matching cascade of `refreshContributors` in the
API refresh script: sanitized slug, then case-insensitive display name
(unless the name is the placeholder), then the original slug. -/
def matchWithMaps (slugPairs namePairs : List (Str × PayloadContributor))
    (src : WfContributor) : Option PayloadContributor :=
  match jsMapGet slugPairs (srcSanitized src) with
  | some t => some t
  | none =>
    let name := srcName src
    match (if name ≠ [] ∧ name ≠ ("Unknown Contributor").data then
             jsMapGet namePairs (jsTrim (jsLower name))
           else none) with
    | some t => some t
    | none =>
      let orig := srcOrigKey src
      if orig = [] then none else jsMapGet slugPairs orig

/-- The matcher applied to a target store snapshot. -/
def refreshMatch (store : List PayloadContributor) (src : WfContributor) :
    Option PayloadContributor :=
  matchWithMaps (mkSlugPairs store) (mkNamePairs store) src

/-! ## The API refresh run (`refreshContributors`, lookup maps built once) -/

/-- State threaded through a refresh run: the target store, the
`contributorIdMap` and the next fresh Payload id. -/
structure ApiState where
  store : List PayloadContributor
  idMap : List (Str × Nat)
  nextId : Nat
  deriving Repr, DecidableEq

/-- One iteration of the `refreshContributors` loop.  The lookup maps
are the ones built from the store snapshot before the loop; they are
not updated when a record is created. -/
def refreshStep (slugPairs namePairs : List (Str × PayloadContributor))
    (st : ApiState) (src : WfContributor) : ApiState :=
  let rawSlug := srcRawSlug src
  if rawSlug = [] ∨ jsTrim rawSlug = [] then st
  else
    let s := sanitizeSlug rawSlug
    if s = [] then st
    else
      let d := contributorDataOf src s
      match matchWithMaps slugPairs namePairs src with
      | some t =>
        { st with
          store := st.store.map
            (fun r => if r.id = t.id then applyContributorData d r else r)
          idMap := mapSet st.idMap src.id t.id }
      | none =>
        { store := st.store ++ [mkPayloadContributor st.nextId d],
          idMap := mapSet st.idMap src.id st.nextId,
          nextId := st.nextId + 1 }

/-- The `refreshContributors` run of the API refresh script: process
all non-archived contributors (plus archived ones referenced by
projects), matching against lookup maps built once from the initial
store. -/
def refreshContributorsRun (referenced : List Str)
    (all : List WfContributor) (init : ApiState) : ApiState :=
  let toProcess := all.filter (fun c => !c.isArchived || referenced.contains c.id)
  let slugPairs := mkSlugPairs init.store
  let namePairs := mkNamePairs init.store
  toProcess.foldl (refreshStep slugPairs namePairs) init

/-! ## The migration run (`migrateContributors`, live store queries) -/

/-- State threaded through a migration run. -/
structure MigState where
  store : List PayloadContributor
  idMap : List (Str × Nat)
  nextId : Nat
  deriving Repr, DecidableEq

/-- `payload.find({ where: { slug: { equals: s } }, limit: 1 })`. -/
def payloadFindBySlug (store : List PayloadContributor) (s : Str) :
    Option PayloadContributor :=
  store.find? (fun r => decide (r.slug = some s))

/-- One iteration of the `migrateContributors` loop: skip on a missing
or empty-after-sanitization slug, match by sanitized slug against the
live store, then by the legacy slug (the Webflow item id), else create. -/
def migrateStep (st : MigState) (src : WfContributor) : MigState :=
  let rawSlug := srcRawSlug src
  if rawSlug = [] ∨ jsTrim rawSlug = [] then st
  else
    let s := sanitizeSlug rawSlug
    if s = [] then st
    else
      match payloadFindBySlug st.store s with
      | some t => { st with idMap := mapSet st.idMap src.id t.id }
      | none =>
        match payloadFindBySlug st.store src.id with
        | some t =>
          { st with
            store := st.store.map
              (fun r => if r.id = t.id then { r with slug := some s } else r)
            idMap := mapSet st.idMap src.id t.id }
        | none =>
          { store := st.store ++
              [mkPayloadContributor st.nextId (contributorDataOf src s)],
            idMap := mapSet st.idMap src.id st.nextId,
            nextId := st.nextId + 1 }

/-- A source record is active when it is neither draft nor archived. -/
def isActive (c : WfContributor) : Bool := !c.isDraft && !c.isArchived

/-- The `migrateContributors` run: filter to active contributors, then
process them sequentially against the live store. -/
def migrateContributorsRun (srcs : List WfContributor) (init : MigState) :
    MigState :=
  (srcs.filter isActive).foldl migrateStep init

/-- How many target records represent a given source record after a
run: the record its id is mapped to, counted in the store. -/
def representedCount (st : MigState) (src : WfContributor) : Nat :=
  match mapGet st.idMap src.id with
  | none => 0
  | some tid => st.store.countP (fun r => decide (r.id = tid))

/-! ## Project records and the write payload of `migrateProjects` -/

/-- The `fieldData` of a Webflow project item. -/
structure WfProjectFields where
  name : Option Str
  slug : Option Str
  summary : Option Str
  content : Option Str
  status : Option Str
  projectType : Option Str
  hidden : Bool
  recurring : Bool
  totalPaid : Option Int
  serviceFeesCollected : Option Int
  websiteLink : Option Str
  githubLink : Option Str
  twitterLink : Option Str
  discordLink : Option Str
  telegramLink : Option Str
  redditLink : Option Str
  facebookLink : Option Str
  bitcoinContributors : Option (List Str)
  litecoinContributors : Option (List Str)
  advocates : Option (List Str)
  hashtags : Option (List Str)
  deriving Repr, DecidableEq

/-- A Webflow project item. -/
structure WfProject where
  id : Str
  itemSlug : Str
  isDraft : Bool
  isArchived : Bool
  fieldData : WfProjectFields
  deriving Repr, DecidableEq

/-- One element of the `hashtags` array: the object `{ tag }`. -/
structure TagObj where
  tag : Str
  deriving Repr, DecidableEq

/-- The data object passed to `payload.create` for a project, with
optional fields modelled as `Option` (a `none` relation field is the
JS `undefined`, i.e. the key is omitted from the write). -/
structure ProjectData where
  name : Str
  slug : Str
  summary : Str
  content : LexicalDoc
  status : Str
  projectType : Option Str
  hidden : Bool
  recurring : Bool
  totalPaid : Int
  serviceFeesCollected : Int
  website : Option Str
  github : Option Str
  twitter : Option Str
  discord : Option Str
  telegram : Option Str
  reddit : Option Str
  facebook : Option Str
  bitcoinContributors : Option (List Nat)
  litecoinContributors : Option (List Nat)
  advocates : Option (List Nat)
  hashtags : List TagObj
  deriving Repr, DecidableEq

/-- `name = fieldData.name || 'Unknown Project'`. -/
def projName (p : WfProject) : Str :=
  jsOr p.fieldData.name (("Unknown Project").data)

/-- `slug = fieldData.slug || webflowProject.slug || webflowProject.id`. -/
def projRawSlug (p : WfProject) : Str :=
  jsOr p.fieldData.slug (jsOr2 p.itemSlug p.id)

/-- Resolve a reference array through the identifier map: look every id
up and keep only the resolvable ones (in order). -/
def resolveRefs (idm : List (Str × Nat)) (refs : Option (List Str)) :
    List Nat :=
  (refs.getD []).filterMap (fun i => mapGet idm i)

/-- The ids a reference array loses during resolution. -/
def droppedRefs (idm : List (Str × Nat)) (refs : Option (List Str)) :
    List Str :=
  (refs.getD []).filter (fun i => (mapGet idm i).isNone)

/-- The `projectTypeMap` lookup table. -/
def projectTypePairs : List (Str × Str) :=
  [(("open-source").data, ("open-source").data),
   (("opensource").data, ("open-source").data),
   (("open source").data, ("open-source").data),
   (("research").data, ("research").data),
   (("education").data, ("education").data),
   (("infrastructure").data, ("infrastructure").data),
   (("infra").data, ("infrastructure").data)]

/-- Project type mapping: lower-cased, trimmed, looked up in the table,
`undefined` on a miss or an empty input. -/
def mapProjectType (raw : Option Str) : Option Str :=
  let w := jsTrim (jsLower (jsOr raw []))
  if w = [] then none
  else (projectTypePairs.find? (fun q => decide (q.1 = w))).map (fun q => q.2)

/-- The project write payload built in the `migrateProjects` loop
(`refreshProjects` in `refresh-from-webflow.ts` builds the same
object).  Relation fields resolving to nothing are written as
`undefined`; `hashtags` is always written as an array. -/
def buildProjectData (idm : List (Str × Nat)) (p : WfProject) : ProjectData :=
  let bitcoinIds := resolveRefs idm p.fieldData.bitcoinContributors
  let litecoinIds := resolveRefs idm p.fieldData.litecoinContributors
  let advocateIds := resolveRefs idm p.fieldData.advocates
  { name := projName p,
    slug := sanitizeSlug (projRawSlug p),
    summary := jsOr p.fieldData.summary [],
    content := textToLexical p.fieldData.content,
    status := normalizeStatus (jsOr p.fieldData.status []),
    projectType := mapProjectType p.fieldData.projectType,
    hidden := p.fieldData.hidden,
    recurring := p.fieldData.recurring,
    totalPaid := p.fieldData.totalPaid.getD 0,
    serviceFeesCollected := p.fieldData.serviceFeesCollected.getD 0,
    website := p.fieldData.websiteLink,
    github := p.fieldData.githubLink,
    twitter := p.fieldData.twitterLink,
    discord := p.fieldData.discordLink,
    telegram := p.fieldData.telegramLink,
    reddit := p.fieldData.redditLink,
    facebook := p.fieldData.facebookLink,
    bitcoinContributors := if 0 < bitcoinIds.length then some bitcoinIds else none,
    litecoinContributors := if 0 < litecoinIds.length then some litecoinIds else none,
    advocates := if 0 < advocateIds.length then some advocateIds else none,
    hashtags := (p.fieldData.hashtags.getD []).map (fun t => { tag := t }) }

/-- The warnings the `migrateProjects` loop body can log for a record.
The loop warns only on a missing slug or on a slug that sanitizes to
the empty string; nothing is logged about dropped reference ids. -/
inductive MigrationWarning where
  | missingSlug (name : Str)
  | invalidSlug (name : Str)
  deriving Repr, DecidableEq

/-- The warnings logged while processing one project record. -/
def migrateProjectWarnings (p : WfProject) : List MigrationWarning :=
  let name := projName p
  let rawSlug := projRawSlug p
  if rawSlug = [] ∨ jsTrim rawSlug = [] then [MigrationWarning.missingSlug name]
  else if sanitizeSlug rawSlug = [] then [MigrationWarning.invalidSlug name]
  else []

/-! ## The paginated fetcher (`listCollectionItems`) -/

/-- One HTTP response from the collection items endpoint. -/
inductive WfResponse (α : Type) where
  | ok (items : List α)
  | rateLimited
  | err
  deriving Repr

/-- Observable actions of the fetch loop: an items request at an
offset with a page-size limit, or a fixed sleep (milliseconds). -/
inductive FetchEvent where
  | request (offset limit : Nat)
  | wait (ms : Nat)
  deriving Repr, DecidableEq

/-- Result of the fetch loop: the concatenated items, a propagated
error (no partial result), or fuel exhaustion (the real loop would
still be running). -/
inductive FetchResult (α : Type) where
  | done (items : List α)
  | failed
  | outOfFuel
  deriving Repr

/-- The `while (true)` loop of `listCollectionItems`.  `srv k` is the
response of the `k`-th HTTP call from now on; `fuel` bounds the number
of iterations modelled (the real loop has no bound).  A full page
advances the offset by the page size; a 429 sleeps 5000 ms and retries
the same offset keeping the accumulated items; any other error aborts
with no result. -/
def listItemsLoop {α : Type} (srv : Nat → WfResponse α) (acc : List α)
    (off : Nat) : Nat → FetchResult α × List FetchEvent
  | 0 => (FetchResult.outOfFuel, [])
  | fuel + 1 =>
    match srv 0 with
    | WfResponse.ok items =>
      if items.length < 100 then
        (FetchResult.done (acc ++ items), [FetchEvent.request off 100])
      else
        let next := listItemsLoop (fun k => srv (k + 1)) (acc ++ items) (off + 100) fuel
        (next.1, FetchEvent.request off 100 :: next.2)
    | WfResponse.rateLimited =>
      let next := listItemsLoop (fun k => srv (k + 1)) acc off fuel
      (next.1, FetchEvent.request off 100 :: FetchEvent.wait 5000 :: next.2)
    | WfResponse.err => (FetchResult.failed, [FetchEvent.request off 100])

/-- `listCollectionItems`: fetch all pages starting at offset 0. -/
def listCollectionItems {α : Type} (srv : Nat → WfResponse α) (fuel : Nat) :
    FetchResult α × List FetchEvent :=
  listItemsLoop srv [] 0 fuel

/-! ## Sanitizer invariants -/

/-- No two adjacent characters are both hyphens. -/
def NoDD (s : Str) : Prop :=
  List.Chain' (fun a b => ¬(a = '-' ∧ b = '-')) s

lemma mem_of_mem_collapseDashes {c : Char} (l : Str)
    (h : c ∈ collapseDashes l) : c ∈ l := by
  induction l using collapseDashes.induct with
  | case1 => simp [collapseDashes] at h
  | case2 d => simp [collapseDashes] at h; simp [h]
  | case3 d d' rest hdd ih =>
    rw [collapseDashes, if_pos hdd] at h
    exact List.mem_cons_of_mem _ (ih h)
  | case4 d d' rest hdd ih =>
    rw [collapseDashes, if_neg hdd] at h
    rcases List.mem_cons.mp h with h1 | h2
    · exact h1 ▸ List.mem_cons_self _ _
    · exact List.mem_cons_of_mem _ (ih h2)

lemma collapseDashes_cons_head (x : Char) (xs : Str) :
    ∃ ys, collapseDashes (x :: xs) = x :: ys := by
  induction xs generalizing x with
  | nil => exact ⟨[], rfl⟩
  | cons y ys ih =>
    by_cases h : x = '-' ∧ y = '-'
    · obtain ⟨zs, hz⟩ := ih y
      refine ⟨zs, ?_⟩
      rw [collapseDashes, if_pos h, hz, h.1, h.2]
    · exact ⟨collapseDashes (y :: ys), by rw [collapseDashes, if_neg h]⟩

lemma collapseDashes_noDD (l : Str) : NoDD (collapseDashes l) := by
  induction l using collapseDashes.induct with
  | case1 => simp [collapseDashes, NoDD]
  | case2 d => simp [collapseDashes, NoDD]
  | case3 d d' rest hdd ih =>
    rw [NoDD, collapseDashes, if_pos hdd]
    exact ih
  | case4 d d' rest hdd ih =>
    rw [NoDD, collapseDashes, if_neg hdd]
    obtain ⟨zs, hz⟩ := collapseDashes_cons_head d' rest
    rw [hz]
    rw [NoDD, hz] at ih
    exact List.chain'_cons.mpr ⟨hdd, ih⟩

lemma collapseDashes_eq_self (l : Str) (h : NoDD l) : collapseDashes l = l := by
  induction l using collapseDashes.induct with
  | case1 => rfl
  | case2 d => rfl
  | case3 d d' rest hdd ih =>
    exact absurd hdd (List.chain'_cons.mp h).1
  | case4 d d' rest hdd ih =>
    rw [collapseDashes, if_neg hdd, ih (List.chain'_cons.mp h).2]

lemma dropLeadDash_eq (s : Str) : dropLeadDash s = s ∨ dropLeadDash s = s.tail := by
  cases s with
  | nil => exact Or.inl rfl
  | cons c rest =>
    by_cases h : c = '-'
    · exact Or.inr (by simp [dropLeadDash, h])
    · exact Or.inl (by simp [dropLeadDash, h])

lemma mem_of_mem_dropLeadDash {c : Char} {s : Str} (h : c ∈ dropLeadDash s) :
    c ∈ s := by
  rcases dropLeadDash_eq s with he | he
  · exact he ▸ h
  · exact (List.tail_sublist s).subset (he ▸ h)

lemma noDD_dropLeadDash {s : Str} (h : NoDD s) : NoDD (dropLeadDash s) := by
  rcases dropLeadDash_eq s with he | he
  · rw [he]; exact h
  · rw [he]; exact List.Chain'.tail h

lemma head?_dropLeadDash {s : Str} (h : NoDD s) :
    (dropLeadDash s).head? ≠ some '-' := by
  cases s with
  | nil => simp [dropLeadDash]
  | cons c rest =>
    by_cases hc : c = '-'
    · simp only [dropLeadDash, if_pos hc]
      cases rest with
      | nil => simp
      | cons y ys =>
        have hr := (List.chain'_cons.mp h).1
        simp only [List.head?_cons, ne_eq, Option.some.injEq]
        intro hy
        exact hr ⟨hc, hy⟩
    · simp [dropLeadDash, hc]

lemma getLast?_dropLeadDash (z : Str) :
    dropLeadDash z = [] ∨ (dropLeadDash z).getLast? = z.getLast? := by
  cases z with
  | nil => exact Or.inl rfl
  | cons c rest =>
    by_cases hc : c = '-'
    · simp only [dropLeadDash, if_pos hc]
      cases rest with
      | nil => exact Or.inl rfl
      | cons y ys => exact Or.inr List.getLast?_cons_cons.symm
    · exact Or.inr (by simp [dropLeadDash, hc])

lemma noDD_reverse {s : Str} (h : NoDD s) : NoDD s.reverse := by
  rw [NoDD, List.chain'_reverse]
  exact h.imp (fun a b hab hba => hab ⟨hba.2, hba.1⟩)

lemma mem_of_mem_stripEdgeDashes {c : Char} {s : Str}
    (h : c ∈ stripEdgeDashes s) : c ∈ s := by
  unfold stripEdgeDashes at h
  rw [List.mem_reverse] at h
  have h2 := mem_of_mem_dropLeadDash h
  rw [List.mem_reverse] at h2
  exact mem_of_mem_dropLeadDash h2

lemma noDD_stripEdgeDashes {s : Str} (h : NoDD s) : NoDD (stripEdgeDashes s) := by
  unfold stripEdgeDashes
  exact noDD_reverse (noDD_dropLeadDash (noDD_reverse (noDD_dropLeadDash h)))

lemma getLast?_stripEdgeDashes {s : Str} (h : NoDD s) :
    (stripEdgeDashes s).getLast? ≠ some '-' := by
  unfold stripEdgeDashes
  rw [List.getLast?_reverse]
  exact head?_dropLeadDash (noDD_reverse (noDD_dropLeadDash h))

lemma head?_stripEdgeDashes {s : Str} (h : NoDD s) :
    (stripEdgeDashes s).head? ≠ some '-' := by
  unfold stripEdgeDashes
  rw [List.head?_reverse]
  rcases getLast?_dropLeadDash ((dropLeadDash s).reverse) with he | he
  · simp [he]
  · rw [he, List.getLast?_reverse]
    exact head?_dropLeadDash h

lemma isSlugChar_of_mem_replaceBadChars {c : Char} {l : Str}
    (h : c ∈ replaceBadChars l) : isSlugChar c = true := by
  unfold replaceBadChars at h
  obtain ⟨a, _, ha⟩ := List.mem_map.mp h
  by_cases hs : isSlugChar a = true
  · rw [if_pos hs] at ha
    exact ha ▸ hs
  · rw [if_neg hs] at ha
    rw [← ha]
    decide

lemma sanitizeSlug_chars {c : Char} (s : Str) (h : c ∈ sanitizeSlug s) :
    isSlugChar c = true := by
  unfold sanitizeSlug at h
  exact isSlugChar_of_mem_replaceBadChars
    (mem_of_mem_collapseDashes _ (mem_of_mem_stripEdgeDashes h))

lemma sanitizeSlug_noDD (s : Str) : NoDD (sanitizeSlug s) :=
  noDD_stripEdgeDashes (collapseDashes_noDD _)

lemma sanitizeSlug_head (s : Str) : (sanitizeSlug s).head? ≠ some '-' :=
  head?_stripEdgeDashes (collapseDashes_noDD _)

lemma sanitizeSlug_last (s : Str) : (sanitizeSlug s).getLast? ≠ some '-' :=
  getLast?_stripEdgeDashes (collapseDashes_noDD _)

/-! ## Sanitizer idempotence -/

lemma jsLowerChar_eq_self {c : Char} (h : isSlugChar c = true) :
    jsLowerChar c = c := by
  rw [isSlugChar, decide_eq_true_eq] at h
  have hn : ¬(65 ≤ c.toNat ∧ c.toNat ≤ 90) := by omega
  rw [jsLowerChar, if_neg hn]

lemma jsIsWs_eq_false {c : Char} (h : isSlugChar c = true) : jsIsWs c = false := by
  rw [isSlugChar, decide_eq_true_eq] at h
  rw [jsIsWs, decide_eq_false_iff_not]
  intro hmem
  rw [jsWsVals] at hmem
  simp only [List.mem_cons, List.not_mem_nil, or_false] at hmem
  omega

lemma map_eq_self_of_slug {f : Char → Char} {l : Str}
    (hf : ∀ c, isSlugChar c = true → f c = c)
    (h : ∀ c ∈ l, isSlugChar c = true) : l.map f = l := by
  induction l with
  | nil => rfl
  | cons a t ih =>
    rw [List.map_cons, hf a (h a (List.mem_cons_self a t)),
        ih (fun c hc => h c (List.mem_cons_of_mem a hc))]

lemma jsLower_eq_self_of_slug {l : Str} (h : ∀ c ∈ l, isSlugChar c = true) :
    jsLower l = l :=
  map_eq_self_of_slug (fun _ hc => jsLowerChar_eq_self hc) h

lemma replaceBadChars_eq_self_of_slug {l : Str}
    (h : ∀ c ∈ l, isSlugChar c = true) : replaceBadChars l = l :=
  map_eq_self_of_slug (fun _ hc => if_pos hc) h

lemma dropWhile_eq_self_of_false {p : Char → Bool} {l : Str}
    (h : ∀ c ∈ l, p c = false) : l.dropWhile p = l := by
  cases l with
  | nil => rfl
  | cons a t => simp [List.dropWhile, h a (List.mem_cons_self a t)]

lemma jsTrim_eq_self_of_slug {l : Str} (h : ∀ c ∈ l, isSlugChar c = true) :
    jsTrim l = l := by
  rw [jsTrim,
      dropWhile_eq_self_of_false (fun c hc => jsIsWs_eq_false (h c hc)),
      dropWhile_eq_self_of_false
        (fun c hc => jsIsWs_eq_false (h c (List.mem_reverse.mp hc))),
      List.reverse_reverse]

lemma dropLeadDash_eq_self {l : Str} (h : l.head? ≠ some '-') :
    dropLeadDash l = l := by
  cases l with
  | nil => rfl
  | cons a t =>
    have ha : a ≠ '-' := by
      intro ha
      exact h (by rw [ha]; rfl)
    simp [dropLeadDash, ha]

lemma stripEdgeDashes_eq_self {l : Str} (h1 : l.head? ≠ some '-')
    (h2 : l.getLast? ≠ some '-') : stripEdgeDashes l = l := by
  rw [stripEdgeDashes, dropLeadDash_eq_self h1,
      dropLeadDash_eq_self (by rw [List.head?_reverse]; exact h2),
      List.reverse_reverse]

/-- C7: for every input, the sanitizer's output uses only characters
from `[a-z0-9-]`, has no leading hyphen, no trailing hyphen, and no two
adjacent hyphens. -/
theorem sanitizeSlug_wellFormed (s : Str) :
    (∀ c ∈ sanitizeSlug s, isSlugChar c = true) ∧
    (sanitizeSlug s).head? ≠ some '-' ∧
    (sanitizeSlug s).getLast? ≠ some '-' ∧
    List.Chain' (fun a b => ¬(a = '-' ∧ b = '-')) (sanitizeSlug s) :=
  ⟨fun _ hc => sanitizeSlug_chars s hc, sanitizeSlug_head s,
   sanitizeSlug_last s, sanitizeSlug_noDD s⟩

/-- Witness for C7 at a concrete input. -/
theorem sanitizeSlug_wellFormed_witness :
    isSlugChar 'b' = true ∧
    (sanitizeSlug (("-A b!").data)).head? ≠ some '-' :=
  ⟨(sanitizeSlug_wellFormed (("-A b!").data)).1 'b' (by decide),
   (sanitizeSlug_wellFormed (("-A b!").data)).2.1⟩

/-- C6: the slug sanitizer is idempotent. -/
theorem sanitizeSlug_idempotent (s : Str) :
    sanitizeSlug (sanitizeSlug s) = sanitizeSlug s := by
  have hch : ∀ c ∈ sanitizeSlug s, isSlugChar c = true :=
    fun _ hc => sanitizeSlug_chars s hc
  calc sanitizeSlug (sanitizeSlug s)
      = stripEdgeDashes (collapseDashes (replaceBadChars
          (jsTrim (jsLower (sanitizeSlug s))))) := rfl
    _ = sanitizeSlug s := by
        rw [jsLower_eq_self_of_slug hch, jsTrim_eq_self_of_slug hch,
            replaceBadChars_eq_self_of_slug hch,
            collapseDashes_eq_self _ (sanitizeSlug_noDD s),
            stripEdgeDashes_eq_self (sanitizeSlug_head s) (sanitizeSlug_last s)]

/-! ## Status normalization (C5) -/

/-- C5: status normalization lower-cases its input, passes exact enum
values through unchanged, applies the substring heuristics in order
(active/live, complete/done, pause/hold, archive) when the lowered
value is not an enum member, and defaults to "active"; in particular
"Active " maps to active, "on hold" to paused and "xyz-unknown" to
active. -/
theorem normalizeStatus_spec (raw : Str) :
    normalizeStatus (("Active ").data) = ("active").data ∧
    normalizeStatus (("on hold").data) = ("paused").data ∧
    normalizeStatus (("xyz-unknown").data) = ("active").data ∧
    (∀ s ∈ statusEnum, normalizeStatus s = s) ∧
    (statusEnum.contains (jsLower raw) = true →
      normalizeStatus raw = jsLower raw) ∧
    (statusEnum.contains (jsLower raw) = false →
      (strIncl (jsLower raw) (("active").data) ||
       strIncl (jsLower raw) (("live").data)) = true →
      normalizeStatus raw = ("active").data) ∧
    (statusEnum.contains (jsLower raw) = false →
      (strIncl (jsLower raw) (("active").data) ||
       strIncl (jsLower raw) (("live").data)) = false →
      (strIncl (jsLower raw) (("complete").data) ||
       strIncl (jsLower raw) (("done").data)) = true →
      normalizeStatus raw = ("completed").data) ∧
    (statusEnum.contains (jsLower raw) = false →
      (strIncl (jsLower raw) (("active").data) ||
       strIncl (jsLower raw) (("live").data)) = false →
      (strIncl (jsLower raw) (("complete").data) ||
       strIncl (jsLower raw) (("done").data)) = false →
      (strIncl (jsLower raw) (("pause").data) ||
       strIncl (jsLower raw) (("hold").data)) = true →
      normalizeStatus raw = ("paused").data) ∧
    (statusEnum.contains (jsLower raw) = false →
      (strIncl (jsLower raw) (("active").data) ||
       strIncl (jsLower raw) (("live").data)) = false →
      (strIncl (jsLower raw) (("complete").data) ||
       strIncl (jsLower raw) (("done").data)) = false →
      (strIncl (jsLower raw) (("pause").data) ||
       strIncl (jsLower raw) (("hold").data)) = false →
      strIncl (jsLower raw) (("archive").data) = true →
      normalizeStatus raw = ("archived").data) ∧
    (statusEnum.contains (jsLower raw) = false →
      (strIncl (jsLower raw) (("active").data) ||
       strIncl (jsLower raw) (("live").data)) = false →
      (strIncl (jsLower raw) (("complete").data) ||
       strIncl (jsLower raw) (("done").data)) = false →
      (strIncl (jsLower raw) (("pause").data) ||
       strIncl (jsLower raw) (("hold").data)) = false →
      strIncl (jsLower raw) (("archive").data) = false →
      normalizeStatus raw = ("active").data) := by
  refine ⟨by decide, by decide, by decide, by decide, ?_, ?_, ?_, ?_, ?_, ?_⟩
  · intro h1
    simp only [normalizeStatus]
    rw [h1]
    simp
  · intro h1 h2
    simp only [normalizeStatus]
    rw [h1, h2]
    simp
  · intro h1 h2 h3
    simp only [normalizeStatus]
    rw [h1, h2, h3]
    simp
  · intro h1 h2 h3 h4
    simp only [normalizeStatus]
    rw [h1, h2, h3, h4]
    simp
  · intro h1 h2 h3 h4 h5
    simp only [normalizeStatus]
    rw [h1, h2, h3, h4, h5]
    simp
  · intro h1 h2 h3 h4 h5
    simp only [normalizeStatus]
    rw [h1, h2, h3, h4, h5]
    simp

/-- Witness for C5 at a concrete input: "Live now" falls through the
enum test and hits the active/live heuristic. -/
theorem normalizeStatus_spec_witness :
    normalizeStatus (("Live now").data) = ("active").data :=
  (normalizeStatus_spec (("Live now").data)).2.2.2.2.2.1 (by decide) (by decide)

/-! ## Plain-text to Lexical conversion (C8) -/

/-- C8: `textToLexical` drops blank lines and produces one paragraph
per remaining line in input order (each paragraph carrying the trimmed
line as its single text child), and for undefined, empty or all-blank
input produces the well-formed document with exactly one paragraph and
zero text children. -/
theorem textToLexical_spec :
    ((textToLexical none).root.children.map (fun q => q.children) = [[]]) ∧
    ((textToLexical (some [])).root.children.map (fun q => q.children) = [[]]) ∧
    (∀ s, nonBlankLines s = [] → textToLexical (some s) = emptyLexicalDoc) ∧
    (∀ s, nonBlankLines s ≠ [] →
      (textToLexical (some s)).root.children = (nonBlankLines s).map mkParagraph) ∧
    (∀ s, ((nonBlankLines s).map mkParagraph).map
        (fun q => q.children.map (fun n => n.text)) =
      (nonBlankLines s).map (fun l => [jsTrim l])) ∧
    (∀ s l, l ∈ nonBlankLines s → l ∈ splitNl s ∧ jsTrim l ≠ []) := by
  refine ⟨by decide, by decide, ?_, ?_, ?_, ?_⟩
  · intro s hs
    cases s with
    | nil => rfl
    | cons a t => simp [textToLexical, hs]
  · intro s hs
    cases s with
    | nil => exact absurd (by decide : nonBlankLines [] = []) hs
    | cons a t =>
      have h2 : (nonBlankLines (a :: t)).isEmpty = false := by
        rcases hnb : nonBlankLines (a :: t) with _ | ⟨x, xs⟩
        · exact absurd hnb hs
        · rfl
      simp [textToLexical, h2]
  · intro s
    simp [List.map_map, mkParagraph, mkTextNode, Function.comp]
  · intro s l hl
    refine ⟨(List.mem_filter.mp hl).1, ?_⟩
    have hp := (List.mem_filter.mp hl).2
    intro heq
    rw [heq] at hp
    simp at hp

/-- Witness for C8 at a concrete input. -/
theorem textToLexical_spec_witness :
    (textToLexical (some (("a\n \nb").data))).root.children =
      (nonBlankLines (("a\n \nb").data)).map mkParagraph :=
  (textToLexical_spec).2.2.2.1 (("a\n \nb").data) (by decide)

/-! ## Reference resolution and the project write payload (C4, C10) -/

/-- A small identifier map: only the source id "w1" is resolvable. -/
def idm0 : List (Str × Nat) := [(("w1").data, 7)]

/-- Concrete project fields: one resolvable and one unresolvable
bitcoin-contributor id, an advocates array resolving to nothing, and
no hashtags. -/
def pf0 : WfProjectFields :=
  { name := some (("Widget").data), slug := some (("widget").data),
    summary := none, content := none, status := some (("Active").data),
    projectType := none, hidden := false, recurring := false,
    totalPaid := some 5, serviceFeesCollected := none,
    websiteLink := none, githubLink := none, twitterLink := none,
    discordLink := none, telegramLink := none, redditLink := none,
    facebookLink := none,
    bitcoinContributors := some [("w1").data, ("w2").data],
    litecoinContributors := none,
    advocates := some [("w9").data],
    hashtags := none }

/-- A concrete active project record with the fields above. -/
def p0 : WfProject :=
  { id := ("p-id-1").data, itemSlug := ("widget").data, isDraft := false,
    isArchived := false, fieldData := pf0 }

/-- Counterexample for C4: the array with one resolvable id ("w1") and
one unresolvable id ("w2") is mapped to only the resolvable target id,
but processing the record logs no warning at all, so no warning is
logged for the dropped id (the claim requires one per dropped id). -/
theorem refs_dropped_without_warning :
    resolveRefs idm0 pf0.bitcoinContributors = [7] ∧
    droppedRefs idm0 pf0.bitcoinContributors = [("w2").data] ∧
    (buildProjectData idm0 p0).bitcoinContributors = some [7] ∧
    migrateProjectWarnings p0 = [] ∧
    ¬((droppedRefs idm0 pf0.bitcoinContributors).length ≤
      (migrateProjectWarnings p0).length) := by
  refine ⟨by decide, by decide, by decide, by decide, by decide⟩

/-- C4 (amended): every id of a reference array is resolved through the
identifier map and unresolvable ids are silently filtered out (no
warning is logged for them — the loop warns only about slug problems);
an array resolving to zero ids yields the field omitted (undefined) in
the write payload, never an empty array. -/
theorem mapRefs_resolve_and_omit (idm : List (Str × Nat)) (p : WfProject) :
    (∀ a b x, mapGet idm a = some x → mapGet idm b = none →
      resolveRefs idm (some [a, b]) = [x]) ∧
    (∀ refs, resolveRefs idm (some refs) =
      refs.filterMap (fun i => mapGet idm i)) ∧
    (resolveRefs idm none = []) ∧
    (resolveRefs idm p.fieldData.bitcoinContributors = [] →
      (buildProjectData idm p).bitcoinContributors = none) ∧
    (resolveRefs idm p.fieldData.litecoinContributors = [] →
      (buildProjectData idm p).litecoinContributors = none) ∧
    (resolveRefs idm p.fieldData.advocates = [] →
      (buildProjectData idm p).advocates = none) ∧
    (projRawSlug p ≠ [] → jsTrim (projRawSlug p) ≠ [] →
      sanitizeSlug (projRawSlug p) ≠ [] →
      migrateProjectWarnings p = []) := by
  refine ⟨?_, ?_, rfl, ?_, ?_, ?_, ?_⟩
  · intro a b x ha hb
    simp [resolveRefs, ha, hb]
  · intro refs
    rfl
  · intro h
    simp [buildProjectData, h]
  · intro h
    simp [buildProjectData, h]
  · intro h
    simp [buildProjectData, h]
  · intro h1 h2 h3
    simp [migrateProjectWarnings, h1, h2, h3]

/-- Witness for C4 (amended) at concrete inputs. -/
theorem mapRefs_resolve_and_omit_witness :
    resolveRefs idm0 (some [("w1").data, ("w9").data]) = [7] ∧
    (buildProjectData idm0 p0).litecoinContributors = none :=
  ⟨(mapRefs_resolve_and_omit idm0 p0).1 (("w1").data) (("w9").data) 7
      (by decide) (by decide),
   (mapRefs_resolve_and_omit idm0 p0).2.2.2.2.1 (by decide)⟩

/-- C10: the `hashtags` field of the write payload is always an array
of tag objects — the empty array when the source has no hashtags —
whereas the relation fields (bitcoinContributors, litecoinContributors,
advocates) are omitted (undefined) when they resolve to nothing. -/
theorem projectData_hashtags_vs_relations (idm : List (Str × Nat))
    (p : WfProject) :
    ((buildProjectData idm p).hashtags =
      (p.fieldData.hashtags.getD []).map (fun t => { tag := t })) ∧
    (p.fieldData.hashtags = none → (buildProjectData idm p).hashtags = []) ∧
    (∀ l, p.fieldData.hashtags = some l →
      (buildProjectData idm p).hashtags = l.map (fun t => { tag := t })) ∧
    (resolveRefs idm p.fieldData.bitcoinContributors = [] →
      (buildProjectData idm p).bitcoinContributors = none) ∧
    (∀ l, resolveRefs idm p.fieldData.bitcoinContributors = l → l ≠ [] →
      (buildProjectData idm p).bitcoinContributors = some l) ∧
    (resolveRefs idm p.fieldData.litecoinContributors = [] →
      (buildProjectData idm p).litecoinContributors = none) ∧
    (resolveRefs idm p.fieldData.advocates = [] →
      (buildProjectData idm p).advocates = none) := by
  refine ⟨rfl, ?_, ?_, ?_, ?_, ?_, ?_⟩
  · intro h
    simp [buildProjectData, h]
  · intro l h
    simp [buildProjectData, h]
  · intro h
    simp [buildProjectData, h]
  · intro l hl hne
    have hpos : 0 < l.length := List.length_pos.mpr hne
    simp only [buildProjectData]
    rw [hl, if_pos hpos]
  · intro h
    simp [buildProjectData, h]
  · intro h
    simp [buildProjectData, h]

/-- Witness for C10 at concrete inputs. -/
theorem projectData_hashtags_vs_relations_witness :
    (buildProjectData idm0 p0).hashtags = [] ∧
    (buildProjectData idm0 p0).advocates = none :=
  ⟨(projectData_hashtags_vs_relations idm0 p0).2.1 rfl,
   (projectData_hashtags_vs_relations idm0 p0).2.2.2.2.2.2 (by decide)⟩

/-! ## Paginated fetcher lemmas (C9) -/

/-- Event trace of `n` consecutive rate-limited calls at one offset. -/
def rlEvents (off : Nat) : Nat → List FetchEvent
  | 0 => []
  | n + 1 => FetchEvent.request off 100 :: FetchEvent.wait 5000 :: rlEvents off n

lemma loop_request_events {α : Type} :
    ∀ (fuel : Nat) (srv : Nat → WfResponse α) (acc : List α) (off : Nat),
      100 ∣ off → ∀ o l,
      FetchEvent.request o l ∈ (listItemsLoop srv acc off fuel).2 →
      l = 100 ∧ 100 ∣ o := by
  intro fuel
  induction fuel with
  | zero =>
    intro srv acc off hoff o l hmem
    simp [listItemsLoop] at hmem
  | succ n ih =>
    intro srv acc off hoff o l hmem
    rw [listItemsLoop] at hmem
    cases hsrv : srv 0 with
    | ok items =>
      by_cases hlen : items.length < 100
      · simp [hsrv, hlen] at hmem
        obtain ⟨h1, h2⟩ := hmem
        subst h1
        subst h2
        exact ⟨rfl, hoff⟩
      · simp [hsrv, hlen] at hmem
        rcases hmem with ⟨h1, h2⟩ | hmem
        · subst h1
          subst h2
          exact ⟨rfl, hoff⟩
        · exact ih _ _ _ (Dvd.dvd.add hoff (dvd_refl 100)) o l hmem
    | rateLimited =>
      simp [hsrv] at hmem
      rcases hmem with ⟨h1, h2⟩ | hmem
      · subst h1
        subst h2
        exact ⟨rfl, hoff⟩
      · exact ih _ _ _ hoff o l hmem
    | err =>
      simp [hsrv] at hmem
      obtain ⟨h1, h2⟩ := hmem
      subst h1
      subst h2
      exact ⟨rfl, hoff⟩

lemma loop_wait_events {α : Type} :
    ∀ (fuel : Nat) (srv : Nat → WfResponse α) (acc : List α) (off : Nat)
      (m : Nat),
      FetchEvent.wait m ∈ (listItemsLoop srv acc off fuel).2 → m = 5000 := by
  intro fuel
  induction fuel with
  | zero =>
    intro srv acc off m hmem
    simp [listItemsLoop] at hmem
  | succ n ih =>
    intro srv acc off m hmem
    rw [listItemsLoop] at hmem
    cases hsrv : srv 0 with
    | ok items =>
      by_cases hlen : items.length < 100
      · simp [hsrv, hlen] at hmem
      · simp [hsrv, hlen] at hmem
        exact ih _ _ _ m hmem
    | rateLimited =>
      simp [hsrv] at hmem
      rcases hmem with hm | hmem
      · exact hm
      · exact ih _ _ _ m hmem
    | err =>
      simp [hsrv] at hmem

lemma loop_rate_limited_eq {α : Type} {srv : Nat → WfResponse α}
    (acc : List α) (off fuel : Nat) (h : srv 0 = WfResponse.rateLimited) :
    listItemsLoop srv acc off (fuel + 1) =
      ((listItemsLoop (fun k => srv (k + 1)) acc off fuel).1,
       FetchEvent.request off 100 :: FetchEvent.wait 5000 ::
         (listItemsLoop (fun k => srv (k + 1)) acc off fuel).2) := by
  rw [listItemsLoop, h]

lemma loop_survives_429 {α : Type} :
    ∀ (n : Nat) (srv : Nat → WfResponse α) (acc : List α) (off fuel : Nat),
      (∀ k, k < n → srv k = WfResponse.rateLimited) →
      listItemsLoop srv acc off (n + fuel) =
        ((listItemsLoop (fun k => srv (k + n)) acc off fuel).1,
         rlEvents off n ++ (listItemsLoop (fun k => srv (k + n)) acc off fuel).2) := by
  intro n
  induction n with
  | zero =>
    intro srv acc off fuel h
    simp [rlEvents]
  | succ m ih =>
    intro srv acc off fuel h
    have h0 : srv 0 = WfResponse.rateLimited := h 0 (Nat.succ_pos m)
    have hstep : (m + 1) + fuel = (m + fuel) + 1 := by omega
    rw [hstep, loop_rate_limited_eq acc off (m + fuel) h0]
    have ih' := ih (fun k => srv (k + 1)) acc off fuel
      (fun k hk => h (k + 1) (by omega))
    rw [ih']
    have hfun : (fun k => (fun j => srv (j + 1)) (k + m)) =
        (fun k => srv (k + (m + 1))) := by
      funext k
      show srv (k + m + 1) = srv (k + (m + 1))
      rfl
    rw [hfun]
    simp [rlEvents]

lemma loop_ok_full {α : Type} (srv : Nat → WfResponse α) (items : List α)
    (h0 : srv 0 = WfResponse.ok items) (hlen : ¬ items.length < 100)
    (acc : List α) (off fuel : Nat) :
    listItemsLoop srv acc off (fuel + 1) =
      ((listItemsLoop (fun k => srv (k + 1)) (acc ++ items) (off + 100) fuel).1,
       FetchEvent.request off 100 ::
         (listItemsLoop (fun k => srv (k + 1)) (acc ++ items) (off + 100) fuel).2) := by
  rw [listItemsLoop, h0]
  simp [hlen]

lemma loop_ok_short {α : Type} (srv : Nat → WfResponse α) (items : List α)
    (h0 : srv 0 = WfResponse.ok items) (hlen : items.length < 100)
    (acc : List α) (off fuel : Nat) :
    listItemsLoop srv acc off (fuel + 1) =
      (FetchResult.done (acc ++ items), [FetchEvent.request off 100]) := by
  rw [listItemsLoop, h0]
  simp [hlen]

lemma loop_err_eq {α : Type} (srv : Nat → WfResponse α)
    (h0 : srv 0 = WfResponse.err) (acc : List α) (off fuel : Nat) :
    listItemsLoop srv acc off (fuel + 1) =
      (FetchResult.failed, [FetchEvent.request off 100]) := by
  rw [listItemsLoop, h0]

/-- C9: the fetcher requests pages of fixed size 100 at offsets that
are multiples of 100; it returns the concatenation of the pages and
stops after the first short page; on a 429 it emits a fixed 5000 ms
wait and retries the same offset with the accumulated items preserved,
surviving any finite number of consecutive rate limits (the real loop
has no retry cap); any other error yields `failed` with no partial
items. -/
theorem listCollectionItems_spec {α : Type} (srv : Nat → WfResponse α)
    (fuel : Nat) :
    (∀ o l, FetchEvent.request o l ∈ (listCollectionItems srv fuel).2 →
      l = 100 ∧ 100 ∣ o) ∧
    (∀ m, FetchEvent.wait m ∈ (listCollectionItems srv fuel).2 → m = 5000) ∧
    (∀ (p1 p2 : List α) (extra : Nat), p1.length = 100 → p2.length < 100 →
      listCollectionItems
          (fun k => if k = 0 then WfResponse.ok p1 else WfResponse.ok p2)
          (extra + 2) =
        (FetchResult.done (p1 ++ p2),
         [FetchEvent.request 0 100, FetchEvent.request 100 100])) ∧
    (∀ (p1 : List α) (extra : Nat), p1.length = 100 →
      listCollectionItems
          (fun k => if k = 0 then WfResponse.ok p1 else WfResponse.err)
          (extra + 2) =
        (FetchResult.failed,
         [FetchEvent.request 0 100, FetchEvent.request 100 100])) ∧
    (∀ (n : Nat) (p : List α), p.length < 100 →
      listCollectionItems
          (fun k => if k < n then WfResponse.rateLimited else WfResponse.ok p)
          (n + 1) =
        (FetchResult.done p, rlEvents 0 n ++ [FetchEvent.request 0 100])) ∧
    (∀ (acc : List α) (off : Nat), srv 0 = WfResponse.rateLimited →
      listItemsLoop srv acc off (fuel + 1) =
        ((listItemsLoop (fun k => srv (k + 1)) acc off fuel).1,
         FetchEvent.request off 100 :: FetchEvent.wait 5000 ::
           (listItemsLoop (fun k => srv (k + 1)) acc off fuel).2)) := by
  refine ⟨?_, ?_, ?_, ?_, ?_, ?_⟩
  · exact fun o l h => loop_request_events fuel srv [] 0 (dvd_zero 100) o l h
  · exact fun m h => loop_wait_events fuel srv [] 0 m h
  · intro p1 p2 extra h1 h2
    have hn1 : ¬ p1.length < 100 := by omega
    rw [listCollectionItems]
    have e1 := loop_ok_full
      (fun k => if k = 0 then WfResponse.ok p1 else WfResponse.ok p2)
      p1 (by simp) hn1 [] 0 (extra + 1)
    have e1' : listItemsLoop
        (fun k => if k = 0 then WfResponse.ok p1 else WfResponse.ok p2)
        ([] : List α) 0 (extra + 2) =
      ((listItemsLoop (fun k => if k + 1 = 0 then WfResponse.ok p1
          else WfResponse.ok p2) ([] ++ p1) (0 + 100) (extra + 1)).1,
       FetchEvent.request 0 100 ::
         (listItemsLoop (fun k => if k + 1 = 0 then WfResponse.ok p1
           else WfResponse.ok p2) ([] ++ p1) (0 + 100) (extra + 1)).2) := e1
    rw [e1']
    have e2 := loop_ok_short
      (fun k => if k + 1 = 0 then WfResponse.ok p1 else WfResponse.ok p2)
      p2 (by simp) h2 ([] ++ p1) (0 + 100) extra
    rw [e2]
    simp
  · intro p1 extra h1
    have hn1 : ¬ p1.length < 100 := by omega
    rw [listCollectionItems]
    have e1 := loop_ok_full
      (fun k => if k = 0 then WfResponse.ok p1 else WfResponse.err)
      p1 (by simp) hn1 [] 0 (extra + 1)
    have e1' : listItemsLoop
        (fun k => if k = 0 then WfResponse.ok p1 else WfResponse.err)
        ([] : List α) 0 (extra + 2) =
      ((listItemsLoop (fun k => if k + 1 = 0 then WfResponse.ok p1
          else WfResponse.err) ([] ++ p1) (0 + 100) (extra + 1)).1,
       FetchEvent.request 0 100 ::
         (listItemsLoop (fun k => if k + 1 = 0 then WfResponse.ok p1
           else WfResponse.err) ([] ++ p1) (0 + 100) (extra + 1)).2) := e1
    rw [e1']
    have e2 := loop_err_eq
      (fun k => if k + 1 = 0 then WfResponse.ok p1 else WfResponse.err)
      (by simp) ([] ++ p1) (0 + 100) extra
    rw [e2]
  · intro n p hp
    rw [listCollectionItems]
    have h429 : ∀ k, k < n →
        (fun k => if k < n then WfResponse.rateLimited else WfResponse.ok p) k =
          WfResponse.rateLimited := fun k hk => by simp [hk]
    rw [loop_survives_429 n _ [] 0 1 h429]
    have hshift : (fun k =>
        (fun j => if j < n then WfResponse.rateLimited else WfResponse.ok p)
          (k + n)) = (fun _ => WfResponse.ok p) := by
      funext k
      have hge : ¬ (k + n < n) := by omega
      simp [hge]
    rw [hshift]
    have e := loop_ok_short (fun _ => WfResponse.ok p) p rfl hp [] 0 0
    have e' : listItemsLoop (fun _ => WfResponse.ok p) ([] : List α) 0 1 =
        (FetchResult.done (([] : List α) ++ p), [FetchEvent.request 0 100]) := e
    rw [e']
    simp
  · exact fun acc off h => loop_rate_limited_eq acc off fuel h

/-- Witness for C9: a single rate-limited call followed by a short page
still succeeds, with the 5000 ms wait and the repeated offset-0 request
in the trace. -/
theorem listCollectionItems_spec_witness :
    listCollectionItems
        (fun k => if k < 1 then WfResponse.rateLimited
          else WfResponse.ok ([] : List Nat)) (1 + 1) =
      (FetchResult.done ([] : List Nat),
       rlEvents 0 1 ++ [FetchEvent.request 0 100]) :=
  (listCollectionItems_spec (fun _ => (WfResponse.err : WfResponse Nat)) 0).2.2.2.2.1
    1 [] (by decide)

/-! ## JS Map lookup lemmas and the matching cascade (C1) -/

lemma jsMapGet_some_of_exists {α : Type} (pairs : List (Str × α)) (k : Str)
    (h : ∃ q ∈ pairs, q.1 = k) :
    ∃ v, jsMapGet pairs k = some v ∧ (k, v) ∈ pairs := by
  rcases hf : pairs.reverse.find? (fun q => decide (q.1 = k)) with _ | q
  · exfalso
    obtain ⟨q, hq, hk⟩ := h
    have hnone := List.find?_eq_none.mp hf q (List.mem_reverse.mpr hq)
    simp [hk] at hnone
  · refine ⟨q.2, ?_, ?_⟩
    · simp [jsMapGet, hf]
    · have h1 := List.find?_some hf
      have h2 := List.mem_of_find?_eq_some hf
      rw [List.mem_reverse] at h2
      have hk : q.1 = k := by simpa using h1
      rw [← hk]
      exact h2

lemma jsMapGet_eq_none {α : Type} (pairs : List (Str × α)) (k : Str)
    (h : ∀ q ∈ pairs, q.1 ≠ k) : jsMapGet pairs k = none := by
  rw [jsMapGet, List.find?_eq_none.mpr]
  · rfl
  · intro q hq
    simp [h q (List.mem_reverse.mp hq)]

lemma slugPairs_exists {store : List PayloadContributor} {key : Str}
    (h : ∃ t ∈ store, slugKeyOfTarget t = key) :
    ∃ v, jsMapGet (mkSlugPairs store) key = some v ∧ v ∈ store ∧
      slugKeyOfTarget v = key := by
  obtain ⟨t, ht, hkey⟩ := h
  obtain ⟨v, hv, hmem⟩ := jsMapGet_some_of_exists (mkSlugPairs store) key
    ⟨(slugKeyOfTarget t, t), List.mem_map.mpr ⟨t, ht, rfl⟩, hkey⟩
  obtain ⟨u, hu, huv⟩ := List.mem_map.mp hmem
  have h1 : slugKeyOfTarget u = key := congrArg Prod.fst huv
  have h2 : u = v := congrArg Prod.snd huv
  exact ⟨v, hv, h2 ▸ hu, h2 ▸ h1⟩

lemma slugPairs_none {store : List PayloadContributor} {key : Str}
    (h : ∀ t ∈ store, slugKeyOfTarget t ≠ key) :
    jsMapGet (mkSlugPairs store) key = none := by
  apply jsMapGet_eq_none
  intro q hq
  obtain ⟨u, hu, hq'⟩ := List.mem_map.mp hq
  rw [← hq']
  exact h u hu

lemma nameKey_some_iff (t : PayloadContributor) (key : Str) :
    nameKeyOfTarget t = some key ↔
      truthyOpt t.name = true ∧ jsTrim (jsLower (t.name.getD [])) = key := by
  rw [nameKeyOfTarget]
  by_cases h : truthyOpt t.name = true
  · simp [h]
  · simp [h]

lemma namePairs_exists {store : List PayloadContributor} {key : Str}
    (h : ∃ t ∈ store, nameKeyOfTarget t = some key) :
    ∃ v, jsMapGet (mkNamePairs store) key = some v ∧ v ∈ store ∧
      nameKeyOfTarget v = some key := by
  obtain ⟨t, ht, hkey⟩ := h
  rw [nameKey_some_iff] at hkey
  have hmem : (key, t) ∈ mkNamePairs store :=
    List.mem_map.mpr ⟨t, List.mem_filter.mpr ⟨ht, hkey.1⟩, by rw [hkey.2]⟩
  obtain ⟨v, hv, hmem'⟩ := jsMapGet_some_of_exists (mkNamePairs store) key
    ⟨(key, t), hmem, rfl⟩
  obtain ⟨u, hu, huv⟩ := List.mem_map.mp hmem'
  have h1 : jsTrim (jsLower (u.name.getD [])) = key := congrArg Prod.fst huv
  have h2 : u = v := congrArg Prod.snd huv
  have hu' := List.mem_filter.mp hu
  refine ⟨v, hv, h2 ▸ hu'.1, ?_⟩
  rw [← h2, nameKey_some_iff]
  exact ⟨hu'.2, h1⟩

lemma namePairs_none {store : List PayloadContributor} {key : Str}
    (h : ∀ t ∈ store, nameKeyOfTarget t ≠ some key) :
    jsMapGet (mkNamePairs store) key = none := by
  apply jsMapGet_eq_none
  intro q hq
  obtain ⟨u, hu, hq'⟩ := List.mem_map.mp hq
  have hu' := List.mem_filter.mp hu
  intro hk
  apply h u hu'.1
  rw [nameKey_some_iff]
  refine ⟨hu'.2, ?_⟩
  rw [← hq'] at hk
  exact hk

lemma srcName_ne_nil (c : WfContributor) : srcName c ≠ [] := by
  rw [srcName]
  cases hf : c.fieldName with
  | none =>
    simp only [jsOr]
    decide
  | some s =>
    simp only [jsOr]
    by_cases he : s.isEmpty = true
    · rw [if_pos he]
      decide
    · rw [if_neg he]
      intro h
      rw [h] at he
      exact he rfl

/-- C1: the refresh matcher evaluates its three strategies in a fixed
order with the first hit winning: a sanitized-slug match is taken
regardless of the display name; otherwise a case-insensitive trimmed
display-name match is taken when the source name is not the
placeholder; otherwise a match under the original (pre-sanitization)
slug key is taken when that key is nonempty; and when all strategies
miss the matcher returns none, i.e. the record is created. -/
theorem refreshMatch_cascade (store : List PayloadContributor)
    (src : WfContributor) :
    ((∃ t ∈ store, slugKeyOfTarget t = srcSanitized src) →
      ∃ t, refreshMatch store src = some t ∧ t ∈ store ∧
        slugKeyOfTarget t = srcSanitized src) ∧
    ((∀ t ∈ store, slugKeyOfTarget t ≠ srcSanitized src) →
      srcName src ≠ ("Unknown Contributor").data →
      (∃ t ∈ store, nameKeyOfTarget t = some (jsTrim (jsLower (srcName src)))) →
      ∃ t, refreshMatch store src = some t ∧ t ∈ store ∧
        nameKeyOfTarget t = some (jsTrim (jsLower (srcName src)))) ∧
    ((∀ t ∈ store, slugKeyOfTarget t ≠ srcSanitized src) →
      (srcName src = ("Unknown Contributor").data ∨
        ∀ t ∈ store, nameKeyOfTarget t ≠ some (jsTrim (jsLower (srcName src)))) →
      srcOrigKey src ≠ [] →
      (∃ t ∈ store, slugKeyOfTarget t = srcOrigKey src) →
      ∃ t, refreshMatch store src = some t ∧ t ∈ store ∧
        slugKeyOfTarget t = srcOrigKey src) ∧
    ((∀ t ∈ store, slugKeyOfTarget t ≠ srcSanitized src) →
      (srcName src = ("Unknown Contributor").data ∨
        ∀ t ∈ store, nameKeyOfTarget t ≠ some (jsTrim (jsLower (srcName src)))) →
      (srcOrigKey src = [] ∨
        ∀ t ∈ store, slugKeyOfTarget t ≠ srcOrigKey src) →
      refreshMatch store src = none) := by
  refine ⟨?_, ?_, ?_, ?_⟩
  · intro h
    obtain ⟨v, hv, hvm, hvk⟩ := slugPairs_exists h
    exact ⟨v, by simp only [refreshMatch, matchWithMaps, hv], hvm, hvk⟩
  · intro hslug hname hex
    have h1 : jsMapGet (mkSlugPairs store) (srcSanitized src) = none :=
      slugPairs_none hslug
    obtain ⟨v, hv, hvm, hvk⟩ := namePairs_exists hex
    refine ⟨v, ?_, hvm, hvk⟩
    have hcond : srcName src ≠ [] ∧
        srcName src ≠ ("Unknown Contributor").data :=
      ⟨srcName_ne_nil src, hname⟩
    simp only [refreshMatch, matchWithMaps, h1, if_pos hcond, hv]
  · intro hslug hnm horig hex
    have h1 : jsMapGet (mkSlugPairs store) (srcSanitized src) = none :=
      slugPairs_none hslug
    have h2 : (if srcName src ≠ [] ∧
        srcName src ≠ ("Unknown Contributor").data then
          jsMapGet (mkNamePairs store) (jsTrim (jsLower (srcName src)))
        else none) = none := by
      rcases hnm with hpl | hforall
      · rw [if_neg]
        intro hc
        exact hc.2 hpl
      · by_cases hc : srcName src ≠ [] ∧
            srcName src ≠ ("Unknown Contributor").data
        · rw [if_pos hc]
          exact namePairs_none hforall
        · rw [if_neg hc]
    obtain ⟨v, hv, hvm, hvk⟩ := slugPairs_exists hex
    refine ⟨v, ?_, hvm, hvk⟩
    simp only [refreshMatch, matchWithMaps, h1, h2, if_neg horig, hv]
  · intro hslug hnm hor
    have h1 : jsMapGet (mkSlugPairs store) (srcSanitized src) = none :=
      slugPairs_none hslug
    have h2 : (if srcName src ≠ [] ∧
        srcName src ≠ ("Unknown Contributor").data then
          jsMapGet (mkNamePairs store) (jsTrim (jsLower (srcName src)))
        else none) = none := by
      rcases hnm with hpl | hforall
      · rw [if_neg]
        intro hc
        exact hc.2 hpl
      · by_cases hc : srcName src ≠ [] ∧
            srcName src ≠ ("Unknown Contributor").data
        · rw [if_pos hc]
          exact namePairs_none hforall
        · rw [if_neg hc]
    rcases hor with hnil | hforall
    · simp only [refreshMatch, matchWithMaps, h1, h2, hnil, if_true]
    · have h3 : jsMapGet (mkSlugPairs store) (srcOrigKey src) = none :=
        slugPairs_none hforall
      by_cases hnilq : srcOrigKey src = []
      · simp only [refreshMatch, matchWithMaps, h1, h2, hnilq, if_true]
      · simp only [refreshMatch, matchWithMaps, h1, h2, if_neg hnilq, h3]

/-- A one-record target store whose slug is "alice". -/
def store1 : List PayloadContributor :=
  [{ id := 1, slug := some (("alice").data), name := some (("Alice A").data),
     twitterLink := none, discordLink := none, githubLink := none,
     youtubeLink := none, linkedinLink := none, email := none }]

/-- A source record whose sanitized slug is "alice" but whose display
name differs from the stored one. -/
def srcA : WfContributor :=
  { id := ("wfa").data, itemSlug := ("Alice").data,
    fieldName := some (("Someone Else").data), fieldSlug := none,
    twitterLink := none, discordLink := none, githubLink := none,
    youtubeLink := none, linkedinLink := none, email := none,
    isDraft := false, isArchived := false }

/-- Witness for C1: the slug strategy hits regardless of the name. -/
theorem refreshMatch_cascade_witness :
    ∃ t, refreshMatch store1 srcA = some t ∧ t ∈ store1 ∧
      slugKeyOfTarget t = srcSanitized srcA :=
  (refreshMatch_cascade store1 srcA).1 (by decide)

/-! ## Duplicate creates in the API refresh run (C2) -/

/-- Active source contributor with raw slug "Alice" (sanitizes to
"alice") and display name "Alpha". -/
def cA : WfContributor :=
  { id := ("w1").data, itemSlug := ("Alice").data,
    fieldName := some (("Alpha").data), fieldSlug := none,
    twitterLink := none, discordLink := none, githubLink := none,
    youtubeLink := none, linkedinLink := none, email := none,
    isDraft := false, isArchived := false }

/-- Active source contributor with raw slug "alice!" (also sanitizes to
"alice") and display name "Beta". -/
def cB : WfContributor :=
  { id := ("w2").data, itemSlug := ("alice!").data,
    fieldName := some (("Beta").data), fieldSlug := none,
    twitterLink := none, discordLink := none, githubLink := none,
    youtubeLink := none, linkedinLink := none, email := none,
    isDraft := false, isArchived := false }

/-- A refresh run starting against an empty target store. -/
def emptyApiState : ApiState := { store := [], idMap := [], nextId := 1 }

/-- C2 evaluated at the failing input: the API refresh run builds its
lookup maps once from the (empty) initial store and never adds created
records to them, so both source records are created and the final
store holds two records with the same sanitized slug "alice" — the
very situation the unique-slug schema of the contributors collection
forbids. -/
theorem refresh_duplicate_create_eval :
    ((refreshContributorsRun [] [cA, cB] emptyApiState).store.countP
      (fun r => decide (r.slug = some (("alice").data)))) = 2 ∧
    (refreshContributorsRun [] [cA, cB] emptyApiState).store.length = 2 := by
  refine ⟨by decide, by decide⟩

/-! ## Representation after a migration run (C3) -/

/-- Well-formedness of a migration run state: pairwise-distinct Payload
ids, all below the next fresh id. -/
def MigInv (st : MigState) : Prop :=
  st.store.Pairwise (fun a b => a.id ≠ b.id) ∧
  ∀ r ∈ st.store, r.id < st.nextId

/-- A source record is mapped to an id that identifies exactly one
record of the store. -/
def WellRep (st : MigState) (c : WfContributor) : Prop :=
  ∃ tid, mapGet st.idMap c.id = some tid ∧ tid < st.nextId ∧
    st.store.countP (fun r => decide (r.id = tid)) = 1

lemma countP_id_eq_one {l : List PayloadContributor} {t : PayloadContributor}
    (hp : l.Pairwise (fun a b => a.id ≠ b.id)) (ht : t ∈ l) :
    l.countP (fun r => decide (r.id = t.id)) = 1 := by
  induction l with
  | nil => cases ht
  | cons a rest ih =>
    rw [List.countP_cons]
    rcases List.mem_cons.mp ht with he | hm
    · subst he
      have h0 : rest.countP (fun r => decide (r.id = t.id)) = 0 := by
        rw [List.countP_eq_zero]
        intro b hb
        have hne := (List.pairwise_cons.mp hp).1 b hb
        simp only [decide_eq_true_eq]
        exact fun he' => hne he'.symm
      rw [h0]
      simp
    · have ha : a.id ≠ t.id := (List.pairwise_cons.mp hp).1 t hm
      rw [ih (List.pairwise_cons.mp hp).2 hm]
      simp [ha]

lemma payloadFindBySlug_mem {store : List PayloadContributor} {s : Str}
    {t : PayloadContributor} (h : payloadFindBySlug store s = some t) :
    t ∈ store ∧ t.slug = some s := by
  refine ⟨List.mem_of_find?_eq_some h, ?_⟩
  have hp := List.find?_some h
  simpa using hp

lemma mapGet_mapSet_same (m : List (Str × Nat)) (k : Str) (v : Nat) :
    mapGet (mapSet m k v) k = some v := by
  simp [mapGet, mapSet]

lemma mapGet_mapSet_ne (m : List (Str × Nat)) (k : Str) (v : Nat) (k' : Str)
    (h : k' ≠ k) : mapGet (mapSet m k v) k' = mapGet m k' := by
  have hk : ¬ (decide (k = k') = true) := by
    simp
    exact fun he => h he.symm
  simp [mapGet, mapSet, List.find?, hk]

lemma wellRep_id_congr {st : MigState} {c c' : WfContributor}
    (h : c.id = c'.id) (hw : WellRep st c) : WellRep st c' := by
  obtain ⟨tid, hmap, hlt, hcount⟩ := hw
  exact ⟨tid, h ▸ hmap, hlt, hcount⟩

lemma countP_store_map_id (store : List PayloadContributor) (s : Str)
    (t : PayloadContributor) (x : Nat) :
    ((store.map (fun y => if y.id = t.id then { y with slug := some s }
        else y)).countP (fun r' => decide (r'.id = x))) =
      store.countP (fun r' => decide (r'.id = x)) := by
  induction store with
  | nil => rfl
  | cons a rest ih =>
    rw [List.map_cons, List.countP_cons, List.countP_cons, ih]
    by_cases ha : a.id = t.id <;> simp [ha]

lemma countP_nextId_zero {st : MigState} (hinv : MigInv st) {x : Nat}
    (hx : st.nextId ≤ x) :
    st.store.countP (fun r' => decide (r'.id = x)) = 0 := by
  rw [List.countP_eq_zero]
  intro b hb
  have hb' := hinv.2 b hb
  simp only [decide_eq_true_eq]
  omega

lemma migrateStep_id_pres (s : Str) (t y : PayloadContributor) :
    (if y.id = t.id then { y with slug := some s } else y).id = y.id := by
  by_cases hy : y.id = t.id <;> simp [hy]

lemma migInv_step (st : MigState) (r : WfContributor) (h : MigInv st) :
    MigInv (migrateStep st r) := by
  simp only [migrateStep]
  by_cases h1 : srcRawSlug r = [] ∨ jsTrim (srcRawSlug r) = []
  · rw [if_pos h1]
    exact h
  · rw [if_neg h1]
    by_cases h2 : sanitizeSlug (srcRawSlug r) = []
    · rw [if_pos h2]
      exact h
    · rw [if_neg h2]
      cases hf : payloadFindBySlug st.store (sanitizeSlug (srcRawSlug r)) with
      | some t => exact h
      | none =>
        cases hl : payloadFindBySlug st.store r.id with
        | some t =>
          constructor
          · rw [List.pairwise_map]
            apply h.1.imp
            intro a b hab
            rw [migrateStep_id_pres, migrateStep_id_pres]
            exact hab
          · intro x hx
            obtain ⟨y, hy, hxy⟩ := List.mem_map.mp hx
            rw [← hxy, migrateStep_id_pres]
            exact h.2 y hy
        | none =>
          constructor
          · rw [List.pairwise_append]
            refine ⟨h.1, List.pairwise_singleton _ _, ?_⟩
            intro a ha b hb
            rw [List.mem_singleton] at hb
            subst hb
            have hlt := h.2 a ha
            simp only [mkPayloadContributor]
            omega
          · intro x hx
            rcases List.mem_append.mp hx with hx | hx
            · have hlt := h.2 x hx
              simp only []
              omega
            · rw [List.mem_singleton] at hx
              subst hx
              simp only [mkPayloadContributor]
              omega

lemma wellRep_est (st : MigState) (c : WfContributor) (hinv : MigInv st)
    (h1 : ¬(srcRawSlug c = [] ∨ jsTrim (srcRawSlug c) = []))
    (h2 : sanitizeSlug (srcRawSlug c) ≠ []) :
    WellRep (migrateStep st c) c := by
  simp only [migrateStep]
  rw [if_neg h1, if_neg h2]
  cases hf : payloadFindBySlug st.store (sanitizeSlug (srcRawSlug c)) with
  | some t =>
    obtain ⟨htm, _⟩ := payloadFindBySlug_mem hf
    exact ⟨t.id, mapGet_mapSet_same _ _ _, hinv.2 t htm,
      countP_id_eq_one hinv.1 htm⟩
  | none =>
    cases hl : payloadFindBySlug st.store c.id with
    | some t =>
      obtain ⟨htm, _⟩ := payloadFindBySlug_mem hl
      refine ⟨t.id, mapGet_mapSet_same _ _ _, hinv.2 t htm, ?_⟩
      rw [countP_store_map_id]
      exact countP_id_eq_one hinv.1 htm
    | none =>
      refine ⟨st.nextId, mapGet_mapSet_same _ _ _, Nat.lt_succ_self _, ?_⟩
      rw [List.countP_append, countP_nextId_zero hinv (le_refl _)]
      simp [mkPayloadContributor]

lemma wellRep_step (st : MigState) (r c : WfContributor) (hinv : MigInv st)
    (h : WellRep st c) : WellRep (migrateStep st r) c := by
  by_cases hg1 : srcRawSlug r = [] ∨ jsTrim (srcRawSlug r) = []
  · simp only [migrateStep]
    rw [if_pos hg1]
    exact h
  · by_cases hg2 : sanitizeSlug (srcRawSlug r) = []
    · simp only [migrateStep]
      rw [if_neg hg1, if_pos hg2]
      exact h
    · by_cases hcr : r.id = c.id
      · exact wellRep_id_congr hcr (wellRep_est st r hinv hg1 hg2)
      · obtain ⟨tid, hmap, hlt, hcount⟩ := h
        have hne : c.id ≠ r.id := fun he => hcr he.symm
        simp only [migrateStep]
        rw [if_neg hg1, if_neg hg2]
        cases hf : payloadFindBySlug st.store (sanitizeSlug (srcRawSlug r)) with
        | some t =>
          refine ⟨tid, ?_, hlt, hcount⟩
          rw [mapGet_mapSet_ne _ _ _ _ hne]
          exact hmap
        | none =>
          cases hl : payloadFindBySlug st.store r.id with
          | some t =>
            refine ⟨tid, ?_, hlt, ?_⟩
            · rw [mapGet_mapSet_ne _ _ _ _ hne]
              exact hmap
            · rw [countP_store_map_id]
              exact hcount
          | none =>
            refine ⟨tid, ?_, ?_, ?_⟩
            · rw [mapGet_mapSet_ne _ _ _ _ hne]
              exact hmap
            · show tid < st.nextId + 1
              omega
            · have hz : ([mkPayloadContributor st.nextId
                  (contributorDataOf r (sanitizeSlug (srcRawSlug r)))].countP
                  (fun r' => decide (r'.id = tid))) = 0 := by
                simp only [List.countP_cons, List.countP_nil,
                  mkPayloadContributor, decide_eq_true_eq]
                have : ¬ (st.nextId = tid) := by omega
                simp [this]
              rw [List.countP_append, hcount, hz]

lemma migInv_foldl (l : List WfContributor) (st : MigState) (h : MigInv st) :
    MigInv (l.foldl migrateStep st) := by
  induction l generalizing st with
  | nil => exact h
  | cons a t ih => exact ih _ (migInv_step st a h)

lemma wellRep_foldl (l : List WfContributor) (st : MigState)
    (c : WfContributor) (hinv : MigInv st) (h : WellRep st c) :
    WellRep (l.foldl migrateStep st) c := by
  induction l generalizing st with
  | nil => exact h
  | cons a t ih =>
    exact ih _ (migInv_step st a hinv) (wellRep_step st a c hinv h)

/-! ## The projects migration run (C3, `migrateProjects`) -/

/-- A Payload project document: the numeric id plus the stored fields
(the shape written by the migration). -/
structure PayloadProject where
  id : Nat
  doc : ProjectData
  deriving Repr, DecidableEq

/-- `payload.find({ collection: 'projects', where: { slug: { equals: s
} }, limit: 1 })`. -/
def projFindBySlug (store : List PayloadProject) (s : Str) :
    Option PayloadProject :=
  store.find? (fun r => decide (r.doc.slug = s))

/-- State threaded through a projects migration run. -/
structure ProjState where
  store : List PayloadProject
  idMap : List (Str × Nat)
  nextId : Nat
  deriving Repr, DecidableEq

/-- A project enters the run only when it is neither draft nor archived
nor hidden: `migrateProjects` filters on all three. -/
def isPublishedProject (p : WfProject) : Bool :=
  !p.isDraft && !p.isArchived && !p.fieldData.hidden

/-- One iteration of the `migrateProjects` loop: skip on a missing or
empty-after-sanitization slug, match by sanitized slug against the
live store, then by the legacy slug (the Webflow item id, updating
only the slug), else create with the full write payload (the
contributor identifier map resolves the reference fields). -/
def migrateProjectsStep (cIdm : List (Str × Nat)) (st : ProjState)
    (p : WfProject) : ProjState :=
  let rawSlug := projRawSlug p
  if rawSlug = [] ∨ jsTrim rawSlug = [] then st
  else
    let s := sanitizeSlug rawSlug
    if s = [] then st
    else
      match projFindBySlug st.store s with
      | some t => { st with idMap := mapSet st.idMap p.id t.id }
      | none =>
        match projFindBySlug st.store p.id with
        | some t =>
          { st with
            store := st.store.map
              (fun r => if r.id = t.id then
                { r with doc := { r.doc with slug := s } } else r)
            idMap := mapSet st.idMap p.id t.id }
        | none =>
          { store := st.store ++
              [{ id := st.nextId, doc := buildProjectData cIdm p }],
            idMap := mapSet st.idMap p.id st.nextId,
            nextId := st.nextId + 1 }

/-- The `migrateProjects` run: filter to published (not draft, not
archived, not hidden) projects, then process them sequentially against
the live store. -/
def migrateProjectsRun (cIdm : List (Str × Nat)) (srcs : List WfProject)
    (init : ProjState) : ProjState :=
  (srcs.filter isPublishedProject).foldl (migrateProjectsStep cIdm) init

/-- How many target records represent a given source project after a
run. -/
def representedProjCount (st : ProjState) (p : WfProject) : Nat :=
  match mapGet st.idMap p.id with
  | none => 0
  | some tid => st.store.countP (fun r => decide (r.id = tid))

/-- Well-formedness of a projects run state. -/
def ProjInv (st : ProjState) : Prop :=
  st.store.Pairwise (fun a b => a.id ≠ b.id) ∧
  ∀ r ∈ st.store, r.id < st.nextId

/-- A source project is mapped to an id identifying exactly one record
of the store. -/
def WellRepP (st : ProjState) (p : WfProject) : Prop :=
  ∃ tid, mapGet st.idMap p.id = some tid ∧ tid < st.nextId ∧
    st.store.countP (fun r => decide (r.id = tid)) = 1

lemma countP_projId_eq_one {l : List PayloadProject} {t : PayloadProject}
    (hp : l.Pairwise (fun a b => a.id ≠ b.id)) (ht : t ∈ l) :
    l.countP (fun r => decide (r.id = t.id)) = 1 := by
  induction l with
  | nil => cases ht
  | cons a rest ih =>
    rw [List.countP_cons]
    rcases List.mem_cons.mp ht with he | hm
    · subst he
      have h0 : rest.countP (fun r => decide (r.id = t.id)) = 0 := by
        rw [List.countP_eq_zero]
        intro b hb
        have hne := (List.pairwise_cons.mp hp).1 b hb
        simp only [decide_eq_true_eq]
        exact fun he' => hne he'.symm
      rw [h0]
      simp
    · have ha : a.id ≠ t.id := (List.pairwise_cons.mp hp).1 t hm
      rw [ih (List.pairwise_cons.mp hp).2 hm]
      simp [ha]

lemma projFindBySlug_mem {store : List PayloadProject} {s : Str}
    {t : PayloadProject} (h : projFindBySlug store s = some t) :
    t ∈ store ∧ t.doc.slug = s := by
  refine ⟨List.mem_of_find?_eq_some h, ?_⟩
  have hp := List.find?_some h
  simpa using hp

lemma countP_projStore_map_id (store : List PayloadProject) (s : Str)
    (t : PayloadProject) (x : Nat) :
    ((store.map (fun y => if y.id = t.id then
        { y with doc := { y.doc with slug := s } } else y)).countP
      (fun r' => decide (r'.id = x))) =
      store.countP (fun r' => decide (r'.id = x)) := by
  induction store with
  | nil => rfl
  | cons a rest ih =>
    rw [List.map_cons, List.countP_cons, List.countP_cons, ih]
    by_cases ha : a.id = t.id <;> simp [ha]

lemma countP_projNextId_zero {st : ProjState} (hinv : ProjInv st) {x : Nat}
    (hx : st.nextId ≤ x) :
    st.store.countP (fun r' => decide (r'.id = x)) = 0 := by
  rw [List.countP_eq_zero]
  intro b hb
  have hb' := hinv.2 b hb
  simp only [decide_eq_true_eq]
  omega

lemma projStep_id_pres (s : Str) (t y : PayloadProject) :
    (if y.id = t.id then { y with doc := { y.doc with slug := s } }
      else y).id = y.id := by
  by_cases hy : y.id = t.id <;> simp [hy]

lemma projInv_step (cIdm : List (Str × Nat)) (st : ProjState)
    (p : WfProject) (h : ProjInv st) :
    ProjInv (migrateProjectsStep cIdm st p) := by
  simp only [migrateProjectsStep]
  by_cases h1 : projRawSlug p = [] ∨ jsTrim (projRawSlug p) = []
  · rw [if_pos h1]
    exact h
  · rw [if_neg h1]
    by_cases h2 : sanitizeSlug (projRawSlug p) = []
    · rw [if_pos h2]
      exact h
    · rw [if_neg h2]
      cases hf : projFindBySlug st.store (sanitizeSlug (projRawSlug p)) with
      | some t => exact h
      | none =>
        cases hl : projFindBySlug st.store p.id with
        | some t =>
          constructor
          · rw [List.pairwise_map]
            apply h.1.imp
            intro a b hab
            rw [projStep_id_pres, projStep_id_pres]
            exact hab
          · intro x hx
            obtain ⟨y, hy, hxy⟩ := List.mem_map.mp hx
            rw [← hxy, projStep_id_pres]
            exact h.2 y hy
        | none =>
          constructor
          · rw [List.pairwise_append]
            refine ⟨h.1, List.pairwise_singleton _ _, ?_⟩
            intro a ha b hb
            rw [List.mem_singleton] at hb
            subst hb
            have hlt := h.2 a ha
            show a.id ≠ st.nextId
            omega
          · intro x hx
            rcases List.mem_append.mp hx with hx | hx
            · have hlt := h.2 x hx
              show x.id < st.nextId + 1
              omega
            · rw [List.mem_singleton] at hx
              subst hx
              show st.nextId < st.nextId + 1
              omega

lemma wellRepP_id_congr {st : ProjState} {p p' : WfProject}
    (h : p.id = p'.id) (hw : WellRepP st p) : WellRepP st p' := by
  obtain ⟨tid, hmap, hlt, hcount⟩ := hw
  exact ⟨tid, h ▸ hmap, hlt, hcount⟩

lemma wellRepP_est (cIdm : List (Str × Nat)) (st : ProjState)
    (p : WfProject) (hinv : ProjInv st)
    (h1 : ¬(projRawSlug p = [] ∨ jsTrim (projRawSlug p) = []))
    (h2 : sanitizeSlug (projRawSlug p) ≠ []) :
    WellRepP (migrateProjectsStep cIdm st p) p := by
  simp only [migrateProjectsStep]
  rw [if_neg h1, if_neg h2]
  cases hf : projFindBySlug st.store (sanitizeSlug (projRawSlug p)) with
  | some t =>
    obtain ⟨htm, _⟩ := projFindBySlug_mem hf
    exact ⟨t.id, mapGet_mapSet_same _ _ _, hinv.2 t htm,
      countP_projId_eq_one hinv.1 htm⟩
  | none =>
    cases hl : projFindBySlug st.store p.id with
    | some t =>
      obtain ⟨htm, _⟩ := projFindBySlug_mem hl
      refine ⟨t.id, mapGet_mapSet_same _ _ _, hinv.2 t htm, ?_⟩
      rw [countP_projStore_map_id]
      exact countP_projId_eq_one hinv.1 htm
    | none =>
      refine ⟨st.nextId, mapGet_mapSet_same _ _ _, Nat.lt_succ_self _, ?_⟩
      rw [List.countP_append, countP_projNextId_zero hinv (le_refl _)]
      simp

lemma wellRepP_step (cIdm : List (Str × Nat)) (st : ProjState)
    (r p : WfProject) (hinv : ProjInv st) (h : WellRepP st p) :
    WellRepP (migrateProjectsStep cIdm st r) p := by
  by_cases hg1 : projRawSlug r = [] ∨ jsTrim (projRawSlug r) = []
  · simp only [migrateProjectsStep]
    rw [if_pos hg1]
    exact h
  · by_cases hg2 : sanitizeSlug (projRawSlug r) = []
    · simp only [migrateProjectsStep]
      rw [if_neg hg1, if_pos hg2]
      exact h
    · by_cases hcr : r.id = p.id
      · exact wellRepP_id_congr hcr (wellRepP_est cIdm st r hinv hg1 hg2)
      · obtain ⟨tid, hmap, hlt, hcount⟩ := h
        have hne : p.id ≠ r.id := fun he => hcr he.symm
        simp only [migrateProjectsStep]
        rw [if_neg hg1, if_neg hg2]
        cases hf : projFindBySlug st.store (sanitizeSlug (projRawSlug r)) with
        | some t =>
          refine ⟨tid, ?_, hlt, hcount⟩
          rw [mapGet_mapSet_ne _ _ _ _ hne]
          exact hmap
        | none =>
          cases hl : projFindBySlug st.store r.id with
          | some t =>
            refine ⟨tid, ?_, hlt, ?_⟩
            · rw [mapGet_mapSet_ne _ _ _ _ hne]
              exact hmap
            · rw [countP_projStore_map_id]
              exact hcount
          | none =>
            refine ⟨tid, ?_, ?_, ?_⟩
            · rw [mapGet_mapSet_ne _ _ _ _ hne]
              exact hmap
            · show tid < st.nextId + 1
              omega
            · have hz : ([(⟨st.nextId, buildProjectData cIdm r⟩ : PayloadProject)].countP
                  (fun r' => decide (r'.id = tid))) = 0 := by
                simp only [List.countP_cons, List.countP_nil,
                  decide_eq_true_eq]
                have hnt : ¬ (st.nextId = tid) := by omega
                simp [hnt]
              rw [List.countP_append, hcount, hz]

lemma projInv_foldl (cIdm : List (Str × Nat)) (l : List WfProject)
    (st : ProjState) (h : ProjInv st) :
    ProjInv (l.foldl (migrateProjectsStep cIdm) st) := by
  induction l generalizing st with
  | nil => exact h
  | cons a t ih => exact ih _ (projInv_step cIdm st a h)

lemma wellRepP_foldl (cIdm : List (Str × Nat)) (l : List WfProject)
    (st : ProjState) (p : WfProject) (hinv : ProjInv st)
    (h : WellRepP st p) :
    WellRepP (l.foldl (migrateProjectsStep cIdm) st) p := by
  induction l generalizing st with
  | nil => exact h
  | cons a t ih =>
    exact ih _ (projInv_step cIdm st a hinv) (wellRepP_step cIdm st a p hinv h)

/-- C3 (amended): after a migration run, every source record that the
run processes and whose slug is present and sanitizes to a nonempty
slug is represented by exactly one target record — for contributors
the processed records are the active ones (not draft, not archived);
for projects the run additionally excludes hidden records.  (The
unamended claim fails for an active record whose slug sanitizes to
empty, which is skipped, and for an active but hidden project, which
never enters the run.) -/
theorem migrate_active_represented_once :
    (∀ (srcs : List WfContributor) (init : MigState) (c : WfContributor),
      init.store.Pairwise (fun a b => a.id ≠ b.id) →
      (∀ r ∈ init.store, r.id < init.nextId) →
      c ∈ srcs → isActive c = true →
      srcRawSlug c ≠ [] → jsTrim (srcRawSlug c) ≠ [] →
      sanitizeSlug (srcRawSlug c) ≠ [] →
      representedCount (migrateContributorsRun srcs init) c = 1) ∧
    (∀ (cIdm : List (Str × Nat)) (srcs : List WfProject)
        (init : ProjState) (p : WfProject),
      init.store.Pairwise (fun a b => a.id ≠ b.id) →
      (∀ r ∈ init.store, r.id < init.nextId) →
      p ∈ srcs → isPublishedProject p = true →
      projRawSlug p ≠ [] → jsTrim (projRawSlug p) ≠ [] →
      sanitizeSlug (projRawSlug p) ≠ [] →
      representedProjCount (migrateProjectsRun cIdm srcs init) p = 1) := by
  constructor
  · intro srcs init c hinit1 hinit2 hc hact h1 h2 h3
    have hmem : c ∈ srcs.filter isActive := List.mem_filter.mpr ⟨hc, hact⟩
    obtain ⟨l1, l2, hsplit⟩ := List.append_of_mem hmem
    rw [migrateContributorsRun, hsplit, List.foldl_append, List.foldl_cons]
    have hinv1 : MigInv (l1.foldl migrateStep init) :=
      migInv_foldl l1 init ⟨hinit1, hinit2⟩
    have hg1 : ¬(srcRawSlug c = [] ∨ jsTrim (srcRawSlug c) = []) := by
      rintro (hx | hx)
      exacts [h1 hx, h2 hx]
    have hw : WellRep (migrateStep (l1.foldl migrateStep init) c) c :=
      wellRep_est _ c hinv1 hg1 h3
    have hinv2 : MigInv (migrateStep (l1.foldl migrateStep init) c) :=
      migInv_step _ c hinv1
    have hw2 := wellRep_foldl l2 _ c hinv2 hw
    obtain ⟨tid, hmap, _, hcount⟩ := hw2
    simp only [representedCount, hmap]
    exact hcount
  · intro cIdm srcs init p hinit1 hinit2 hp hpub h1 h2 h3
    have hmem : p ∈ srcs.filter isPublishedProject :=
      List.mem_filter.mpr ⟨hp, hpub⟩
    obtain ⟨l1, l2, hsplit⟩ := List.append_of_mem hmem
    rw [migrateProjectsRun, hsplit, List.foldl_append, List.foldl_cons]
    have hinv1 : ProjInv (l1.foldl (migrateProjectsStep cIdm) init) :=
      projInv_foldl cIdm l1 init ⟨hinit1, hinit2⟩
    have hg1 : ¬(projRawSlug p = [] ∨ jsTrim (projRawSlug p) = []) := by
      rintro (hx | hx)
      exacts [h1 hx, h2 hx]
    have hw : WellRepP
        (migrateProjectsStep cIdm (l1.foldl (migrateProjectsStep cIdm) init) p) p :=
      wellRepP_est cIdm _ p hinv1 hg1 h3
    have hinv2 : ProjInv
        (migrateProjectsStep cIdm (l1.foldl (migrateProjectsStep cIdm) init) p) :=
      projInv_step cIdm _ p hinv1
    have hw2 := wellRepP_foldl cIdm l2 _ p hinv2 hw
    obtain ⟨tid, hmap, _, hcount⟩ := hw2
    simp only [representedProjCount, hmap]
    exact hcount

/-- An active contributor whose slug "???" sanitizes to the empty
string. -/
def cBad : WfContributor :=
  { id := ("w3").data, itemSlug := [], fieldName := some (("Gamma").data),
    fieldSlug := some (("???").data),
    twitterLink := none, discordLink := none, githubLink := none,
    youtubeLink := none, linkedinLink := none, email := none,
    isDraft := false, isArchived := false }

/-- A migration run starting against an empty target store. -/
def emptyMigState : MigState := { store := [], idMap := [], nextId := 1 }

/-- Fields of a project that is active but hidden, with a valid slug. -/
def pfHidden : WfProjectFields :=
  { pf0 with hidden := true, slug := some (("secret").data) }

/-- An active (not draft, not archived) but hidden project. -/
def pHidden : WfProject :=
  { id := ("p-hidden").data, itemSlug := ("secret").data, isDraft := false,
    isArchived := false, fieldData := pfHidden }

/-- A projects migration run starting against an empty target store. -/
def emptyProjState : ProjState := { store := [], idMap := [], nextId := 1 }

/-- Counterexample for C3 as stated: an active contributor whose slug
sanitizes to the empty string is skipped by the migration; and an
active (not draft, not archived) project with a perfectly valid slug
is excluded from the run because it is hidden.  Both end up
represented by no target record, not exactly one. -/
theorem migrate_skipped_unrepresented :
    (isActive cBad = true ∧
     representedCount (migrateContributorsRun [cBad] emptyMigState) cBad = 0 ∧
     ¬(representedCount (migrateContributorsRun [cBad] emptyMigState) cBad
        = 1)) ∧
    (pHidden.isDraft = false ∧ pHidden.isArchived = false ∧
     sanitizeSlug (projRawSlug pHidden) = ("secret").data ∧
     representedProjCount (migrateProjectsRun [] [pHidden] emptyProjState)
       pHidden = 0 ∧
     ¬(representedProjCount (migrateProjectsRun [] [pHidden] emptyProjState)
        pHidden = 1)) := by
  refine ⟨⟨rfl, by decide, by decide⟩,
    ⟨rfl, rfl, by decide, by decide, by decide⟩⟩

/-- Witness for C3 (amended) at concrete inputs, one per entity. -/
theorem migrate_active_represented_once_witness :
    representedCount (migrateContributorsRun [cA] emptyMigState) cA = 1 ∧
    representedProjCount (migrateProjectsRun [] [p0] emptyProjState) p0 = 1 :=
  ⟨(migrate_active_represented_once).1 [cA] emptyMigState cA
      List.Pairwise.nil (fun r hr => absurd hr (List.not_mem_nil r))
      (List.mem_singleton.mpr rfl) rfl (by decide) (by decide) (by decide),
   (migrate_active_represented_once).2 [] [p0] emptyProjState p0
      List.Pairwise.nil (fun r hr => absurd hr (List.not_mem_nil r))
      (List.mem_singleton.mpr rfl) (by decide) (by decide) (by decide)
      (by decide)⟩
